import Mathlib

/-!
The NCCL communicator registry of `paddle/fluid/platform/collective_helper.cc`.

A shallow embedding of `NCCLCommContext` (the process-wide registry of NCCL
communicators, keyed by ring id and device id) and of its three builders and
its release routine, followed by theorems about them.

Modelling conventions.

* C++ `int` values are `Int`.  The two `int` expressions of the file that do
  arithmetic, `kDevices * ntrainers` and `train_id * kDevices + i`, are computed
  with `int_mul` and `int_add`: the exact result when it is representable in 32
  bits, and its two's-complement wrap otherwise (signed overflow is undefined
  behaviour in C++; the wrap is what the emitted `imul` / `add` leave in the
  register).  Theorems about the values of ranks carry the range as a hypothesis.
  The conversions `size_t -> int` of `dev_ids.size()` and of the loop counter are
  the identity on the sizes a `std::vector<int>` of device ids can have.
* `std::map<int, V>` is an association list `List (Int × V)`.  `count`,
  `emplace` and `operator[]` act on the first entry with the key, and `emplace`
  adds a missing key at the end.  Nothing in the file iterates a map in an
  order-sensitive way, so the key order of `std::map` is not represented.
* `std::unique_ptr<NCCLComm>` is `Option NCCLCommImpl`: `none` is the empty
  pointer left behind by `reset()`.
* The CUDA / NCCL entry points are an explicit `Driver`; each call is appended
  to `State.trace`, and the driver decides from the calls issued so far whether
  it succeeds and which communicator it writes.
* A throwing `PADDLE_ENFORCE*` is an `Outcome.error`; the state component of the
  result is the state at the point where the exception leaves the function.
-/

namespace paddle.platform

/-- The values of the C++ type `int`: `INT_MIN <= x <= INT_MAX`. -/
def isInt32 (x : Int) : Prop := -2147483648 ≤ x ∧ x ≤ 2147483647

instance (x : Int) : Decidable (isInt32 x) := by
  unfold isInt32
  exact inferInstance

/-- The 32-bit two's-complement value of an integer: the identity on `int`
values. -/
def wrapInt (x : Int) : Int := (x + 2147483648) % 4294967296 - 2147483648

/-- The `int` product `a * b`. -/
def int_mul (a b : Int) : Int := wrapInt (a * b)

/-- The `int` sum `a + b`. -/
def int_add (a b : Int) : Int := wrapInt (a + b)

/-- The opaque `ncclComm_t` (a pointer); `0` plays the role of `nullptr`. -/
abbrev ncclComm_t := Nat

/-- The opaque contents of an `ncclUniqueId`. -/
abbrev ncclUniqueId := Nat

/-- Fields of `class NCCLCommImpl`.  `device_id` is what `device_id()` reads
from the owned `CUDADeviceContext`, built from `CUDAPlace(dev_id)`. -/
structure NCCLCommImpl where
  ring_id : Int
  nranks : Int
  rank : Int
  comm : ncclComm_t
  device_id : Int
deriving DecidableEq, Repr

/-- The native entry points the builders call. -/
inductive NativeCall where
  | cudaSetDevice (dev : Int)
  | ncclCommInitRank (nranks : Int) (id : ncclUniqueId) (rank : Int)
  | ncclCommInitAll (devs : List Int)
  | ncclGroupStart
  | ncclGroupEnd
deriving DecidableEq, Repr

/-- The precondition checks (`PADDLE_ENFORCE_NOT_NULL/GT/GE/LT/EQ`) of the
builders, named after the condition they enforce. -/
inductive Check where
  | nccl_id_not_null
  | nranks_gt_1
  | rank_ge_0
  | rank_lt_nranks
  | dev_id_ge_0
  | dev_ids_size_gt_0
  | ring_id_count_eq_0
deriving DecidableEq, Repr

/-- Modelled from the spec: the error class of a failed `PADDLE_ENFORCE_*`
comparison.  The macros live in `enforce.h`, which is not among the sources; the
spec classifies every failed precondition, also the two checks of
`CreateNCCLCommMultiTrainer` that pass no error object, as an invalid-argument
condition.  `External` is a failed `PADDLE_ENFORCE_CUDA_SUCCESS`, and
`NullDereference` the evaluation of `*nccl_id` on a null pointer. -/
inductive Error where
  | InvalidArgument (check : Check)
  | External (call : NativeCall)
  | NullDereference
deriving DecidableEq, Repr

/-- Result of a call: a returned value or the exception thrown. -/
inductive Outcome (α : Type) where
  | ok (value : α)
  | error (e : Error)
deriving DecidableEq, Repr

/-- Whether the call threw an invalid-argument error. -/
def Outcome.isInvalidArgument {α : Type} : Outcome α → Bool
  | .error (.InvalidArgument _) => true
  | _ => false

/-- Whether the call returned normally. -/
def Outcome.isOk {α : Type} : Outcome α → Bool
  | .ok _ => true
  | .error _ => false

/-- The inner map `std::map<int, std::unique_ptr<NCCLComm>>` of one ring. -/
abbrev DevMap := List (Int × Option NCCLCommImpl)

/-- The registry `comm_map_`: ring id to device id to owned communicator. -/
abbrev CommMap := List (Int × DevMap)

section MapOps
variable {β : Type}

/-- The `std::map::count` of a key: 0 or 1. -/
def count (k : Int) : List (Int × β) → Nat
  | [] => 0
  | (k', _) :: t => if k' = k then 1 else count k t

/-- The `std::map::find` of a key, as the mapped value when there is one. -/
def find (k : Int) : List (Int × β) → Option β
  | [] => none
  | (k', v) :: t => if k' = k then some v else find k t

/-- The `std::map::emplace`: inserts only when the key is absent. -/
def emplace (k : Int) (v : β) : List (Int × β) → List (Int × β)
  | [] => [(k, v)]
  | (k', v') :: t => if k' = k then (k', v') :: t else (k', v') :: emplace k v t

/-- A write through the reference `m[k]` to an existing entry. -/
def modify (k : Int) (f : β → β) : List (Int × β) → List (Int × β)
  | [] => []
  | (k', v') :: t => if k' = k then (k', f v') :: t else (k', v') :: modify k f t

/-- The map after evaluating `m[k]`: a missing key gets a value-initialised
entry. -/
def index (k : Int) (dflt : β) (m : List (Int × β)) : List (Int × β) :=
  emplace k dflt m

/-- The value `m[k]` refers to. -/
def at_ (k : Int) (dflt : β) (m : List (Int × β)) : β :=
  (find k (index k dflt m)).getD dflt

/-- The keys of a map. -/
def keys (m : List (Int × β)) : List Int := m.map Prod.fst

end MapOps

/-- The members of `NCCLCommContext` and the parts of the process it writes:
the registry, the `nccl_comm` slot of each pooled device context (written for
ring 0), whether `once_flag_` has fired (the exit hook is installed), and the
native calls issued so far, oldest first. -/
structure State where
  comm_map_ : CommMap
  pool_nccl_comm : List (Int × ncclComm_t)
  once_flag_ : Bool
  trace : List NativeCall
deriving DecidableEq, Repr

/-- The state of a process that has not touched the registry. -/
def State.empty : State :=
  { comm_map_ := [], pool_nccl_comm := [], once_flag_ := false, trace := [] }

/-- The CUDA / NCCL library as seen by the builders.  Each entry point gets the
calls issued before it; the `Bool` is success (`cudaSuccess` / `ncclSuccess`),
the communicator component is what the output argument holds afterwards. -/
structure Driver where
  cudaSetDevice : List NativeCall → Int → Bool
  ncclCommInitRank : List NativeCall → Int → ncclUniqueId → Int → Bool × ncclComm_t
  ncclCommInitAll : List NativeCall → List Int → Bool × (Nat → ncclComm_t)
  ncclGroupStart : List NativeCall → Bool
  ncclGroupEnd : List NativeCall → Bool

/-- Every checked native call reports success. -/
def Driver.succeeds (d : Driver) : Prop :=
  (∀ tr dev, d.cudaSetDevice tr dev = true) ∧
  (∀ tr n id r, (d.ncclCommInitRank tr n id r).1 = true) ∧
  (∀ tr devs, (d.ncclCommInitAll tr devs).1 = true) ∧
  (∀ tr, d.ncclGroupStart tr = true) ∧
  (∀ tr, d.ncclGroupEnd tr = true)

/-- A driver on which every call succeeds; the communicator it hands out is
numbered after the calls issued so far. -/
def okDriver : Driver :=
  { cudaSetDevice := fun _ _ => true
    ncclCommInitRank := fun tr _ _ _ => (true, tr.length + 1)
    ncclCommInitAll := fun tr _ => (true, fun i => tr.length + 1 + i)
    ncclGroupStart := fun _ => true
    ncclGroupEnd := fun _ => true }

/-- The driver of a machine with the two devices 0 and 1: `cudaSetDevice` and
`ncclCommInitAll` fail for any other device id, every other call succeeds, and
communicators are numbered as by `okDriver`. -/
def twoDeviceDriver : Driver :=
  { cudaSetDevice := fun _ dev => decide (0 ≤ dev ∧ dev < 2)
    ncclCommInitRank := fun tr _ _ _ => (true, tr.length + 1)
    ncclCommInitAll := fun tr devs =>
      (devs.all (fun dev => decide (0 ≤ dev ∧ dev < 2)), fun i => tr.length + 1 + i)
    ncclGroupStart := fun _ => true
    ncclGroupEnd := fun _ => true }

/-- The lookup `comm_map_.at(ring_id).at(dev_id)` as a partial function: the
stored pointer when the key pair is present. -/
def lookup (ring_id dev_id : Int) (m : CommMap) : Option (Option NCCLCommImpl) :=
  (find ring_id m).bind (find dev_id)

/-- The handles of one ring (empty when the ring has no entry). -/
def group (ring_id : Int) (m : CommMap) : DevMap :=
  (find ring_id m).getD []

/-- `NCCLCommContext::AssignNCCLComm`.  The construction of the
`CUDADeviceContext` and the lookup in `DeviceContextPool` are taken not to
throw.  When `emplace` finds the key present, the new `NCCLCommImpl` is dropped
and the pointer returned is the stored one. -/
def AssignNCCLComm (s : State) (comm : ncclComm_t) (nranks rank dev_id ring_id : Int) :
    Option NCCLCommImpl × State :=
  let c : NCCLCommImpl :=
    { ring_id := ring_id, nranks := nranks, rank := rank, comm := comm, device_id := dev_id }
  -- if (comm_map_.count(ring_id) == 0) comm_map_.emplace(ring_id, {})
  let m1 := if count ring_id s.comm_map_ = 0 then emplace ring_id [] s.comm_map_ else s.comm_map_
  -- auto& dev2comm = comm_map_[ring_id]
  let m2 := index ring_id [] m1
  -- dev2comm.emplace(dev_id, unique_ptr(c))
  let m3 := modify ring_id (emplace dev_id (some c)) m2
  -- if (ring_id == 0) pool.Get(CUDAPlace(dev_id))->set_nccl_comm(comm)
  let pool := if ring_id = 0 then
      (dev_id, comm) :: s.pool_nccl_comm.filter (fun p => p.1 ≠ dev_id)
    else s.pool_nccl_comm
  -- return comm_map_[ring_id][dev_id].get()
  let m4 := index ring_id [] m3
  let m5 := modify ring_id (index dev_id none) m4
  (at_ dev_id none (at_ ring_id [] m3), { s with comm_map_ := m5, pool_nccl_comm := pool })

/-- Appends a native call to the trace. -/
def State.call (s : State) (c : NativeCall) : State :=
  { s with trace := s.trace ++ [c] }

/-- `NCCLCommContext::CreateNCCLComm`.  The token `nccl_id` is a pointer:
`none` is the null pointer. -/
def CreateNCCLComm (d : Driver) (s : State) (nccl_id : Option ncclUniqueId)
    (nranks rank dev_id ring_id : Int) : Outcome (Option NCCLCommImpl) × State :=
  match nccl_id with
  | none => (.error (.InvalidArgument .nccl_id_not_null), s)
  | some id =>
    if ¬ nranks > 1 then (.error (.InvalidArgument .nranks_gt_1), s)
    else if ¬ rank ≥ 0 then (.error (.InvalidArgument .rank_ge_0), s)
    else if ¬ rank < nranks then (.error (.InvalidArgument .rank_lt_nranks), s)
    else if ¬ dev_id ≥ 0 then (.error (.InvalidArgument .dev_id_ge_0), s)
    else
      let s1 := s.call (.cudaSetDevice dev_id)
      if d.cudaSetDevice s.trace dev_id = false then
        (.error (.External (.cudaSetDevice dev_id)), s1)
      else
        let r := d.ncclCommInitRank s1.trace nranks id rank
        let s2 := s1.call (.ncclCommInitRank nranks id rank)
        if r.1 = false then
          (.error (.External (.ncclCommInitRank nranks id rank)), s2)
        else
          let a := AssignNCCLComm s2 r.2 nranks rank dev_id ring_id
          (.ok a.1, { a.2 with once_flag_ := true })

/-- The registration loops of `CreateAllNCCLComms` and
`CreateNCCLCommMultiTrainer`: for the devices from position `i` on,
`AssignNCCLComm(comms[i], nranks, rank(i), dev_ids[i], ring_id)`. -/
def assignLoop (comms : Nat → ncclComm_t) (nranks : Int) (rank : Nat → Int) (ring_id : Int) :
    List Int → Nat → State → State
  | [], _, s => s
  | dev :: rest, i, s =>
    assignLoop comms nranks rank ring_id rest (i + 1)
      (AssignNCCLComm s (comms i) nranks (rank i) dev ring_id).2

/-- `NCCLCommContext::CreateAllNCCLComms`. -/
def CreateAllNCCLComms (d : Driver) (s : State) (dev_ids : List Int) (ring_id : Int) :
    Outcome Unit × State :=
  if ¬ dev_ids.length > 0 then (.error (.InvalidArgument .dev_ids_size_gt_0), s)
  else
    let r := d.ncclCommInitAll s.trace dev_ids
    let s1 := s.call (.ncclCommInitAll dev_ids)
    if r.1 = false then (.error (.External (.ncclCommInitAll dev_ids)), s1)
    else if ¬ count ring_id s1.comm_map_ = 0 then
      (.error (.InvalidArgument .ring_id_count_eq_0), s1)
    else
      let s2 := assignLoop r.2 dev_ids.length (fun i => i) ring_id dev_ids 0 s1
      (.ok (), { s2 with once_flag_ := true })

/-- The rendezvous loop of `CreateNCCLCommMultiTrainer` between
`ncclGroupStart` and `ncclGroupEnd`, from position `i` on: `cudaSetDevice` is
checked, the result of `ncclCommInitRank` is not.  Returns the contents of
`comms` besides the state. -/
def initRankLoop (d : Driver) (nccl_id : Option ncclUniqueId) (nranks : Int) (rank : Nat → Int) :
    List Int → Nat → (Nat → ncclComm_t) → State → Outcome (Nat → ncclComm_t) × State
  | [], _, comms, s => (.ok comms, s)
  | dev :: rest, i, comms, s =>
    let s1 := s.call (.cudaSetDevice dev)
    if d.cudaSetDevice s.trace dev = false then (.error (.External (.cudaSetDevice dev)), s1)
    else
      match nccl_id with
      | none => (.error .NullDereference, s1)
      | some id =>
        let r := d.ncclCommInitRank s1.trace nranks id (rank i)
        let s2 := s1.call (.ncclCommInitRank nranks id (rank i))
        initRankLoop d nccl_id nranks rank rest (i + 1)
          (fun j => if j = i then r.2 else comms j) s2

/-- `NCCLCommContext::CreateNCCLCommMultiTrainer`.  `comms0` is the indeterminate
initial contents of the local array `comms`. -/
def CreateNCCLCommMultiTrainer (d : Driver) (comms0 : Nat → ncclComm_t) (s : State)
    (dev_ids : List Int) (nccl_id : Option ncclUniqueId) (ntrainers train_id ring_id : Int) :
    Outcome Unit × State :=
  if ¬ dev_ids.length > 0 then (.error (.InvalidArgument .dev_ids_size_gt_0), s)
  else
    let kDevices : Int := dev_ids.length
    let s1 := s.call .ncclGroupStart
    if d.ncclGroupStart s.trace = false then (.error (.External .ncclGroupStart), s1)
    else
      match initRankLoop d nccl_id (int_mul kDevices ntrainers)
          (fun i => int_add (int_mul train_id kDevices) i) dev_ids 0 comms0 s1 with
      | (.error e, s2) => (.error e, s2)
      | (.ok comms, s2) =>
        let s3 := s2.call .ncclGroupEnd
        if d.ncclGroupEnd s2.trace = false then (.error (.External .ncclGroupEnd), s3)
        else if ¬ count ring_id s3.comm_map_ = 0 then
          (.error (.InvalidArgument .ring_id_count_eq_0), s3)
        else
          let s4 := assignLoop comms (int_mul kDevices ntrainers)
            (fun i => int_add (int_mul train_id kDevices) i) ring_id dev_ids 0 s3
          (.ok (), { s4 with once_flag_ := true })

/-- `NCCLCommContext::ReleaseNCCLComms`: `reset()` on every stored pointer. -/
def ReleaseNCCLComms (s : State) : State :=
  { s with comm_map_ := s.comm_map_.map (fun p => (p.1, p.2.map (fun q => (q.1, none)))) }

/-- The communicators a ring currently holds (empty pointers left out). -/
def handles (ring_id : Int) (m : CommMap) : List NCCLCommImpl :=
  (group ring_id m).filterMap Prod.snd

/-! ## Specification vocabulary: loop summaries, sample states, reachability -/

/-- The entries the registration loop adds to an empty ring, in order. -/
def entries (comms : Nat → ncclComm_t) (nranks : Int) (rank : Nat → Int) (ring_id : Int) :
    List Int → Nat → DevMap
  | [], _ => []
  | dev :: rest, i =>
    (dev, some ⟨ring_id, nranks, rank i, comms i, dev⟩) ::
      entries comms nranks rank ring_id rest (i + 1)

/-- The inner map of the ring after the registration loop, from its inner map
before. -/
def emplaceAll (comms : Nat → ncclComm_t) (nranks : Int) (rank : Nat → Int) (ring_id : Int) :
    List Int → Nat → DevMap → DevMap
  | [], _, g => g
  | dev :: rest, i, g =>
    emplaceAll comms nranks rank ring_id rest (i + 1)
      (emplace dev (some ⟨ring_id, nranks, rank i, comms i, dev⟩) g)

/-- The registry after one `CreateNCCLComm` on the empty registry: ring 0 holds
a communicator of rank 0 of 2 on device 0. -/
def ring0_dev0 : State := (CreateNCCLComm okDriver State.empty (some 7) 2 0 0 0).2

/-- The registry after `CreateAllNCCLComms([0, 1], 5)` on the empty registry. -/
def ring5_built : State := (CreateAllNCCLComms okDriver State.empty [0, 1] 5).2

/-- The states a process reaches from the untouched registry by builder calls
that return normally.  With `checked = true` the calls of
`CreateNCCLCommMultiTrainer` are those with `0 <= train_id < ntrainers` and a
world size `K * ntrainers` that is an `int` value. -/
inductive Reachable (d : Driver) (checked : Bool) : State → Prop where
  | empty : Reachable d checked State.empty
  | createNCCLComm {s : State} (nccl_id : Option ncclUniqueId)
      (nranks rank dev_id ring_id : Int) :
      Reachable d checked s →
      (CreateNCCLComm d s nccl_id nranks rank dev_id ring_id).1.isOk = true →
      Reachable d checked (CreateNCCLComm d s nccl_id nranks rank dev_id ring_id).2
  | createAllNCCLComms {s : State} (dev_ids : List Int) (ring_id : Int) :
      Reachable d checked s →
      (CreateAllNCCLComms d s dev_ids ring_id).1.isOk = true →
      Reachable d checked (CreateAllNCCLComms d s dev_ids ring_id).2
  | createNCCLCommMultiTrainer {s : State} (comms0 : Nat → ncclComm_t) (dev_ids : List Int)
      (nccl_id : Option ncclUniqueId) (ntrainers train_id ring_id : Int) :
      Reachable d checked s →
      (checked = true → 0 ≤ train_id ∧ train_id < ntrainers ∧
        (dev_ids.length : Int) * ntrainers ≤ 2147483647) →
      (CreateNCCLCommMultiTrainer d comms0 s dev_ids nccl_id ntrainers train_id
        ring_id).1.isOk = true →
      Reachable d checked
        (CreateNCCLCommMultiTrainer d comms0 s dev_ids nccl_id ntrainers train_id ring_id).2

/-- Within the inner map of ring `r`: device keys are pairwise distinct and
every stored handle carries its own keys. -/
def GroupInv (r : Int) (g : DevMap) : Prop :=
  (keys g).Nodup ∧ ∀ dev h, (dev, some h) ∈ g → h.device_id = dev ∧ h.ring_id = r

/-- Every stored handle of the inner map has `0 <= rank < nranks`. -/
def GroupRank (g : DevMap) : Prop :=
  ∀ dev h, (dev, some h) ∈ g → 0 ≤ h.rank ∧ h.rank < h.nranks

/-- The registry after `CreateNCCLCommMultiTrainer` with two local devices, two
trainers and `train_id = 2` on the empty registry: ranks 4 and 5 of 4. -/
def train_id_out_of_range : State :=
  (CreateNCCLCommMultiTrainer okDriver (fun _ => 0) State.empty [0, 1] (some 7) 2 2 5).2

/-- The registry after two `CreateNCCLComm` calls for ring 5, both with rank 0
of 2, on devices 0 and 1. -/
def same_rank_twice : State :=
  (CreateNCCLComm okDriver (CreateNCCLComm okDriver State.empty (some 7) 2 0 0 5).2
    (some 7) 2 0 1 5).2

/-- The registry after `CreateAllNCCLComms([0, 0], 5)` on the empty registry. -/
def same_device_twice : State := (CreateAllNCCLComms okDriver State.empty [0, 0] 5).2

/-! ## The association-list operations -/

section MapLemmas
variable {β : Type}

theorem count_eq_zero_iff (k : Int) (m : List (Int × β)) : count k m = 0 ↔ find k m = none := by
  induction m with
  | nil => simp [count, find]
  | cons p t ih =>
    obtain ⟨k', v⟩ := p
    by_cases h : k' = k <;> simp [count, find, h, ih]

theorem count_le_one (k : Int) (m : List (Int × β)) : count k m ≤ 1 := by
  induction m with
  | nil => simp [count]
  | cons p t ih =>
    obtain ⟨k', v⟩ := p
    by_cases h : k' = k <;> simp [count, h, ih]

theorem find_eq_none_iff (k : Int) (m : List (Int × β)) : find k m = none ↔ k ∉ keys m := by
  induction m with
  | nil => simp [find, keys]
  | cons p t ih =>
    obtain ⟨k', v⟩ := p
    by_cases h : k' = k
    · simp [find, keys, h]
    · have h' : ¬ k = k' := fun e => h e.symm
      simp [find, keys, h, h'] at ih ⊢
      exact ih

theorem find_emplace_self (k : Int) (v : β) (m : List (Int × β)) :
    find k (emplace k v m) = some ((find k m).getD v) := by
  induction m with
  | nil => simp [find, emplace]
  | cons p t ih =>
    obtain ⟨k', v'⟩ := p
    by_cases h : k' = k <;> simp [find, emplace, h, ih]

theorem find_emplace_ne {k k' : Int} (h : k' ≠ k) (v : β) (m : List (Int × β)) :
    find k' (emplace k v m) = find k' m := by
  induction m with
  | nil => simp [find, emplace, Ne.symm h]
  | cons p t ih =>
    obtain ⟨k0, v0⟩ := p
    by_cases h0 : k0 = k
    · simp [find, emplace, h0]
    · by_cases h1 : k0 = k'
      · subst h1
        simp [find, emplace, h0]
      · simp [find, emplace, h0, h1, ih]

theorem emplace_of_find {k : Int} {w : β} (v : β) {m : List (Int × β)} (h : find k m = some w) :
    emplace k v m = m := by
  induction m with
  | nil => simp [find] at h
  | cons p t ih =>
    obtain ⟨k', v'⟩ := p
    by_cases h0 : k' = k
    · simp [emplace, h0]
    · simp [find, h0] at h
      simp [emplace, h0, ih h]

theorem emplace_of_not_mem {k : Int} (v : β) {m : List (Int × β)} (h : find k m = none) :
    emplace k v m = m ++ [(k, v)] := by
  induction m with
  | nil => simp [emplace]
  | cons p t ih =>
    obtain ⟨k', v'⟩ := p
    by_cases h0 : k' = k
    · simp [find, h0] at h
    · simp [find, h0] at h
      simp [emplace, h0, ih h]

theorem emplace_emplace (k : Int) (v w : β) (m : List (Int × β)) :
    emplace k w (emplace k v m) = emplace k v m := by
  have h := find_emplace_self k v m
  exact emplace_of_find w h

theorem find_modify_self (k : Int) (f : β → β) (m : List (Int × β)) :
    find k (modify k f m) = (find k m).map f := by
  induction m with
  | nil => simp [find, modify]
  | cons p t ih =>
    obtain ⟨k', v'⟩ := p
    by_cases h : k' = k <;> simp [find, modify, h, ih]

theorem find_modify_ne {k k' : Int} (h : k' ≠ k) (f : β → β) (m : List (Int × β)) :
    find k' (modify k f m) = find k' m := by
  induction m with
  | nil => simp [find, modify]
  | cons p t ih =>
    obtain ⟨k0, v0⟩ := p
    by_cases h0 : k0 = k
    · subst h0
      simp [find, modify, Ne.symm h]
    · by_cases h1 : k0 = k'
      · subst h1
        simp [find, modify, h0]
      · simp [find, modify, h0, h1, ih]

theorem modify_of_fix {k : Int} {f : β → β} {m : List (Int × β)}
    (h : ∀ v, find k m = some v → f v = v) : modify k f m = m := by
  induction m with
  | nil => simp [modify]
  | cons p t ih =>
    obtain ⟨k', v'⟩ := p
    by_cases h0 : k' = k
    · have := h v' (by simp [find, h0])
      simp [modify, h0, this]
    · simp [modify, h0]
      exact ih (fun v hv => h v (by simp [find, h0, hv]))

theorem keys_modify (k : Int) (f : β → β) (m : List (Int × β)) :
    keys (modify k f m) = keys m := by
  induction m with
  | nil => simp [modify]
  | cons p t ih =>
    obtain ⟨k', v'⟩ := p
    by_cases h : k' = k
    · simp [modify, keys, h]
    · simp only [keys] at ih
      simp [modify, keys, h, ih]

theorem find_mapValues (k : Int) {γ : Type} (f : β → γ) (m : List (Int × β)) :
    find k (m.map (fun p => (p.1, f p.2))) = (find k m).map f := by
  induction m with
  | nil => rfl
  | cons p t ih =>
    obtain ⟨k', v'⟩ := p
    by_cases h : k' = k <;> simp [find, h, ih]

theorem count_mapValues (k : Int) {γ : Type} (f : β → γ) (m : List (Int × β)) :
    count k (m.map (fun p => (p.1, f p.2))) = count k m := by
  induction m with
  | nil => rfl
  | cons p t ih =>
    obtain ⟨k', v'⟩ := p
    by_cases h : k' = k <;> simp [count, h, ih]

theorem keys_mapValues {γ : Type} (f : β → γ) (m : List (Int × β)) :
    keys (m.map (fun p => (p.1, f p.2))) = keys m := by
  simp [keys, Function.comp_def]

theorem count_eq_one_of_ne_zero {k : Int} {m : List (Int × β)} (h : count k m ≠ 0) :
    count k m = 1 := by
  have := count_le_one k m
  omega

end MapLemmas

/-! ## `AssignNCCLComm` -/

theorem find_emplace_ring (ring_id : Int) (m : CommMap) :
    find ring_id (emplace ring_id [] m) = some (group ring_id m) := by
  simp [find_emplace_self, group]

theorem AssignNCCLComm_comm_map (s : State) (comm : ncclComm_t) (nranks rank dev_id ring_id : Int) :
    (AssignNCCLComm s comm nranks rank dev_id ring_id).2.comm_map_ =
      modify ring_id (emplace dev_id (some ⟨ring_id, nranks, rank, comm, dev_id⟩))
        (emplace ring_id [] s.comm_map_) := by
  have h1 : (if count ring_id s.comm_map_ = 0 then emplace ring_id [] s.comm_map_
      else s.comm_map_) = emplace ring_id [] s.comm_map_ := by
    by_cases hc : count ring_id s.comm_map_ = 0
    · simp [hc]
    · simp only [hc, if_false]
      have hf : find ring_id s.comm_map_ ≠ none := fun e => hc ((count_eq_zero_iff _ _).2 e)
      obtain ⟨w, hw⟩ := Option.ne_none_iff_exists'.1 hf
      exact (emplace_of_find [] hw).symm
  simp only [AssignNCCLComm, index, h1, emplace_emplace]
  have h3 : find ring_id (modify ring_id
      (emplace dev_id (some (⟨ring_id, nranks, rank, comm, dev_id⟩ : NCCLCommImpl)))
      (emplace ring_id [] s.comm_map_)) =
      some (emplace dev_id (some ⟨ring_id, nranks, rank, comm, dev_id⟩)
        (group ring_id s.comm_map_)) := by
    rw [find_modify_self, find_emplace_ring]; rfl
  rw [emplace_of_find [] h3]
  apply modify_of_fix
  intro v hv
  rw [h3] at hv
  cases hv
  exact emplace_emplace _ _ _ _

theorem AssignNCCLComm_find (s : State) (comm : ncclComm_t) (nranks rank dev_id ring_id r : Int) :
    find r (AssignNCCLComm s comm nranks rank dev_id ring_id).2.comm_map_ =
      if r = ring_id then
        some (emplace dev_id (some ⟨ring_id, nranks, rank, comm, dev_id⟩)
          (group ring_id s.comm_map_))
      else find r s.comm_map_ := by
  rw [AssignNCCLComm_comm_map]
  by_cases h : r = ring_id
  · subst h
    rw [find_modify_self, find_emplace_ring]; simp
  · rw [find_modify_ne h, find_emplace_ne h]; simp [h]

theorem AssignNCCLComm_group (s : State) (comm : ncclComm_t) (nranks rank dev_id ring_id : Int) :
    group ring_id (AssignNCCLComm s comm nranks rank dev_id ring_id).2.comm_map_ =
      emplace dev_id (some ⟨ring_id, nranks, rank, comm, dev_id⟩) (group ring_id s.comm_map_) := by
  simp [group, AssignNCCLComm_find]

theorem AssignNCCLComm_group_ne (s : State) (comm : ncclComm_t) (nranks rank dev_id : Int)
    {ring_id r : Int} (h : r ≠ ring_id) :
    group r (AssignNCCLComm s comm nranks rank dev_id ring_id).2.comm_map_ =
      group r s.comm_map_ := by
  simp [group, AssignNCCLComm_find, h]

theorem AssignNCCLComm_fst (s : State) (comm : ncclComm_t) (nranks rank dev_id ring_id : Int) :
    (AssignNCCLComm s comm nranks rank dev_id ring_id).1 =
      (find dev_id (group ring_id s.comm_map_)).getD
        (some ⟨ring_id, nranks, rank, comm, dev_id⟩) := by
  have h1 : (if count ring_id s.comm_map_ = 0 then emplace ring_id [] s.comm_map_
      else s.comm_map_) = emplace ring_id [] s.comm_map_ := by
    by_cases hc : count ring_id s.comm_map_ = 0
    · simp [hc]
    · simp only [hc, if_false]
      have hf : find ring_id s.comm_map_ ≠ none := fun e => hc ((count_eq_zero_iff _ _).2 e)
      obtain ⟨w, hw⟩ := Option.ne_none_iff_exists'.1 hf
      exact (emplace_of_find [] hw).symm
  simp only [AssignNCCLComm, index, at_, h1, emplace_emplace, find_emplace_self,
    find_modify_self, find_emplace_ring, Option.map_some', Option.getD_some]
  rfl

theorem AssignNCCLComm_trace (s : State) (comm : ncclComm_t) (nranks rank dev_id ring_id : Int) :
    (AssignNCCLComm s comm nranks rank dev_id ring_id).2.trace = s.trace := rfl

theorem lookup_eq_find_group (ring_id dev_id : Int) (m : CommMap) :
    lookup ring_id dev_id m = find dev_id (group ring_id m) := by
  unfold lookup group
  cases find ring_id m <;> simp [find]

theorem okDriver_succeeds : okDriver.succeeds := by
  simp [Driver.succeeds, okDriver]

/-! ## The registration loop -/

theorem assignLoop_trace (comms : Nat → ncclComm_t) (nranks : Int) (rank : Nat → Int)
    (ring_id : Int) (devs : List Int) (i : Nat) (s : State) :
    (assignLoop comms nranks rank ring_id devs i s).trace = s.trace := by
  induction devs generalizing i s with
  | nil => rfl
  | cons dev rest ih => simp only [assignLoop, ih, AssignNCCLComm_trace]

theorem assignLoop_group (comms : Nat → ncclComm_t) (nranks : Int) (rank : Nat → Int)
    (ring_id : Int) (devs : List Int) (i : Nat) (s : State) :
    group ring_id (assignLoop comms nranks rank ring_id devs i s).comm_map_ =
      emplaceAll comms nranks rank ring_id devs i (group ring_id s.comm_map_) := by
  induction devs generalizing i s with
  | nil => rfl
  | cons dev rest ih => simp only [assignLoop, emplaceAll, ih, AssignNCCLComm_group]

theorem assignLoop_find_ne (comms : Nat → ncclComm_t) (nranks : Int) (rank : Nat → Int)
    {ring_id r : Int} (h : r ≠ ring_id) (devs : List Int) (i : Nat) (s : State) :
    find r (assignLoop comms nranks rank ring_id devs i s).comm_map_ = find r s.comm_map_ := by
  induction devs generalizing i s with
  | nil => rfl
  | cons dev rest ih => simp [assignLoop, ih, AssignNCCLComm_find, h]

theorem assignLoop_find_self (comms : Nat → ncclComm_t) (nranks : Int) (rank : Nat → Int)
    (ring_id : Int) (devs : List Int) (hne : devs ≠ []) (i : Nat) (s : State) :
    find ring_id (assignLoop comms nranks rank ring_id devs i s).comm_map_ =
      some (emplaceAll comms nranks rank ring_id devs i (group ring_id s.comm_map_)) := by
  induction devs generalizing i s with
  | nil => exact absurd rfl hne
  | cons dev rest ih =>
    by_cases hr : rest = []
    · subst hr
      simp [assignLoop, emplaceAll, AssignNCCLComm_find]
    · simp only [assignLoop, emplaceAll, ih hr, AssignNCCLComm_group]

theorem emplaceAll_fresh (comms : Nat → ncclComm_t) (nranks : Int) (rank : Nat → Int)
    (ring_id : Int) (devs : List Int) (i : Nat) (g : DevMap) (hnd : devs.Nodup)
    (hdisj : ∀ dev ∈ devs, find dev g = none) :
    emplaceAll comms nranks rank ring_id devs i g =
      g ++ entries comms nranks rank ring_id devs i := by
  induction devs generalizing i g with
  | nil => simp [emplaceAll, entries]
  | cons dev rest ih =>
    have hd : find dev g = none := hdisj dev (List.mem_cons_self _ _)
    obtain ⟨hnot, hnd'⟩ := List.nodup_cons.1 hnd
    simp only [emplaceAll, entries, emplace_of_not_mem _ hd]
    rw [ih (i + 1) _ hnd']
    · simp
    · intro dev' hmem
      have hne : dev' ≠ dev := fun e => hnot (e ▸ hmem)
      have h0 := hdisj dev' (List.mem_cons_of_mem _ hmem)
      rw [find_eq_none_iff] at h0 ⊢
      simpa [keys, hne] using h0

theorem entries_length (comms : Nat → ncclComm_t) (nranks : Int) (rank : Nat → Int)
    (ring_id : Int) (devs : List Int) (i : Nat) :
    (entries comms nranks rank ring_id devs i).length = devs.length := by
  induction devs generalizing i with
  | nil => rfl
  | cons dev rest ih => simp [entries, ih]

theorem entries_handles_length (comms : Nat → ncclComm_t) (nranks : Int) (rank : Nat → Int)
    (ring_id : Int) (devs : List Int) (i : Nat) :
    ((entries comms nranks rank ring_id devs i).filterMap Prod.snd).length = devs.length := by
  induction devs generalizing i with
  | nil => rfl
  | cons dev rest ih => simp [entries, ih]

theorem find_entries (comms : Nat → ncclComm_t) (nranks : Int) (rank : Nat → Int)
    (ring_id : Int) (devs : List Int) (hnd : devs.Nodup) (i j : Nat) (dev : Int)
    (hj : devs[j]? = some dev) :
    find dev (entries comms nranks rank ring_id devs i) =
      some (some ⟨ring_id, nranks, rank (i + j), comms (i + j), dev⟩) := by
  induction devs generalizing i j with
  | nil => simp at hj
  | cons d0 rest ih =>
    obtain ⟨hnot, hnd'⟩ := List.nodup_cons.1 hnd
    cases j with
    | zero =>
      simp at hj
      subst hj
      simp [entries, find]
    | succ j =>
      simp at hj
      have hmem : dev ∈ rest := List.getElem?_mem hj
      have hne : d0 ≠ dev := fun e => hnot (e ▸ hmem)
      have e : i + 1 + j = i + (j + 1) := by omega
      simp only [entries, find, hne, if_false]
      rw [ih hnd' (i + 1) j hj, e]

/-! ## `CreateNCCLComm` -/

theorem CreateNCCLComm_past_checks (d : Driver) (hd : d.succeeds) (s : State) (id : ncclUniqueId)
    (nranks rank dev_id ring_id : Int) (hn : nranks > 1) (hr0 : 0 ≤ rank) (hr : rank < nranks)
    (hdev : 0 ≤ dev_id) :
    CreateNCCLComm d s (some id) nranks rank dev_id ring_id =
      (.ok (AssignNCCLComm
          ((s.call (.cudaSetDevice dev_id)).call (.ncclCommInitRank nranks id rank))
          (d.ncclCommInitRank (s.call (.cudaSetDevice dev_id)).trace nranks id rank).2
          nranks rank dev_id ring_id).1,
        { (AssignNCCLComm
          ((s.call (.cudaSetDevice dev_id)).call (.ncclCommInitRank nranks id rank))
          (d.ncclCommInitRank (s.call (.cudaSetDevice dev_id)).trace nranks id rank).2
          nranks rank dev_id ring_id).2 with once_flag_ := true }) := by
  obtain ⟨h1, h2, -⟩ := hd
  simp [CreateNCCLComm, hn, hr0, hr, hdev, h1, h2]

/-- C1 as stated fails when the key pair is already present: `emplace` keeps the
stored communicator.  On a registry that holds rank 0 of 2 under ring 0, device
0, the call with `nranks = 4`, `rank = 3` succeeds and both the returned and the
stored handle still have rank 0 and nranks 2. -/
theorem CreateNCCLComm_existing_key_keeps_old :
    (CreateNCCLComm okDriver ring0_dev0 (some 8) 4 3 0 0).1 = .ok (some ⟨0, 2, 0, 2, 0⟩) ∧
    lookup 0 0 (CreateNCCLComm okDriver ring0_dev0 (some 8) 4 3 0 0).2.comm_map_ =
      some (some ⟨0, 2, 0, 2, 0⟩) ∧
    ¬ (∃ h, (CreateNCCLComm okDriver ring0_dev0 (some 8) 4 3 0 0).1 = .ok (some h) ∧
        h.rank = 3 ∧ h.nranks = 4 ∧ h.device_id = 0 ∧ h.ring_id = 0) := by
  refine ⟨by decide, by decide, ?_⟩
  rintro ⟨h, h1, h2, -⟩
  have e : (CreateNCCLComm okDriver ring0_dev0 (some 8) 4 3 0 0).1 = .ok (some ⟨0, 2, 0, 2, 0⟩) := by
    decide
  rw [e] at h1
  cases h1
  simp at h2

/-- C1 (amended): for every state whose registry has no entry under
`(ring_id, dev_id)`, every non-null token and every `nranks > 1`,
`0 <= rank < nranks`, `dev_id >= 0`, on a driver whose calls succeed,
`CreateNCCLComm` returns normally, and the handle it returns is the handle stored
under `(ring_id, dev_id)` afterwards, with `rank`, `nranks`, `device_id` and
`ring_id` exactly as passed in. -/
theorem CreateNCCLComm_registers (d : Driver) (hd : d.succeeds) (s : State) (id : ncclUniqueId)
    (nranks rank dev_id ring_id : Int) (hn : nranks > 1) (hr0 : 0 ≤ rank) (hr : rank < nranks)
    (hdev : 0 ≤ dev_id) (hfresh : lookup ring_id dev_id s.comm_map_ = none) :
    ∃ h : NCCLCommImpl,
      (CreateNCCLComm d s (some id) nranks rank dev_id ring_id).1 = .ok (some h) ∧
      lookup ring_id dev_id (CreateNCCLComm d s (some id) nranks rank dev_id ring_id).2.comm_map_ =
        some (some h) ∧
      h.rank = rank ∧ h.nranks = nranks ∧ h.device_id = dev_id ∧ h.ring_id = ring_id := by
  rw [CreateNCCLComm_past_checks d hd s id nranks rank dev_id ring_id hn hr0 hr hdev]
  rw [lookup_eq_find_group] at hfresh
  refine ⟨⟨ring_id, nranks, rank,
    (d.ncclCommInitRank (s.call (.cudaSetDevice dev_id)).trace nranks id rank).2, dev_id⟩,
    ?_, ?_, rfl, rfl, rfl, rfl⟩
  · simp only [AssignNCCLComm_fst]
    simp [State.call, hfresh]
  · simp only [lookup_eq_find_group, AssignNCCLComm_group, find_emplace_self]
    simp [State.call, hfresh]

/-- Witness of `CreateNCCLComm_registers`: rank 1 of 2 on device 3 in ring 5,
on the empty registry. -/
theorem CreateNCCLComm_registers_witness :
    ∃ h : NCCLCommImpl,
      (CreateNCCLComm okDriver State.empty (some 7) 2 1 3 5).1 = .ok (some h) ∧
      lookup 5 3 (CreateNCCLComm okDriver State.empty (some 7) 2 1 3 5).2.comm_map_ =
        some (some h) ∧
      h.rank = 1 ∧ h.nranks = 2 ∧ h.device_id = 3 ∧ h.ring_id = 5 :=
  CreateNCCLComm_registers okDriver okDriver_succeeds State.empty 7 2 1 3 5
    (by decide) (by decide) (by decide) (by decide) (by decide)

/-- C4: `CreateNCCLComm` throws an invalid-argument error exactly when the token
is null, or `nranks <= 1`, or `rank < 0`, or `rank >= nranks`, or `dev_id < 0`
(whatever the driver does); and when it throws one, the whole state, the
registry included, is the state before the call. -/
theorem CreateNCCLComm_invalid_argument_iff (d : Driver) (s : State)
    (nccl_id : Option ncclUniqueId) (nranks rank dev_id ring_id : Int) :
    ((CreateNCCLComm d s nccl_id nranks rank dev_id ring_id).1.isInvalidArgument = true ↔
      (nccl_id = none ∨ nranks ≤ 1 ∨ rank < 0 ∨ rank ≥ nranks ∨ dev_id < 0)) ∧
    ((CreateNCCLComm d s nccl_id nranks rank dev_id ring_id).1.isInvalidArgument = true →
      (CreateNCCLComm d s nccl_id nranks rank dev_id ring_id).2 = s) := by
  cases nccl_id with
  | none => simp [CreateNCCLComm, Outcome.isInvalidArgument]
  | some id =>
    by_cases hn : nranks > 1
    swap
    · simp [CreateNCCLComm, Outcome.isInvalidArgument, hn]
      left; omega
    by_cases hr0 : rank ≥ 0
    swap
    · simp [CreateNCCLComm, Outcome.isInvalidArgument, hn, hr0]
      right; left; omega
    by_cases hr : rank < nranks
    swap
    · simp [CreateNCCLComm, Outcome.isInvalidArgument, hn, hr0, hr]
      right; right; left; omega
    by_cases hdev : dev_id ≥ 0
    swap
    · simp [CreateNCCLComm, Outcome.isInvalidArgument, hn, hr0, hr, hdev]
      right; right; right; omega
    have hfalse : (CreateNCCLComm d s (some id) nranks rank dev_id ring_id).1.isInvalidArgument
        = false := by
      simp only [CreateNCCLComm, hn, hr0, hr, hdev, not_true_eq_false, if_false]
      cases d.cudaSetDevice s.trace dev_id
      · simp [Outcome.isInvalidArgument]
      · cases hx : (d.ncclCommInitRank (s.call (.cudaSetDevice dev_id)).trace nranks id rank).1 <;>
          simp [Outcome.isInvalidArgument, hx]
    rw [hfalse]
    simp
    omega

/-- Witness of `CreateNCCLComm_invalid_argument_iff`: `nranks = 1` throws an
invalid-argument error, so the state is the state before the call. -/
theorem CreateNCCLComm_invalid_argument_iff_witness :
    (CreateNCCLComm okDriver ring5_built (some 7) 1 0 0 5).1.isInvalidArgument = true ∧
    (CreateNCCLComm okDriver ring5_built (some 7) 1 0 0 5).2 = ring5_built :=
  ⟨(CreateNCCLComm_invalid_argument_iff okDriver ring5_built (some 7) 1 0 0 5).1.2
      (Or.inr (Or.inl (by decide))),
    (CreateNCCLComm_invalid_argument_iff okDriver ring5_built (some 7) 1 0 0 5).2 (by decide)⟩

/-! ## `CreateAllNCCLComms` and `CreateNCCLCommMultiTrainer` on a fresh ring -/

theorem entries_ranks (comms : Nat → ncclComm_t) (nranks : Int) (rank : Nat → Int)
    (ring_id : Int) (devs : List Int) (i : Nat) :
    ((entries comms nranks rank ring_id devs i).filterMap Prod.snd).map NCCLCommImpl.rank =
      (List.range' i devs.length).map rank := by
  induction devs generalizing i with
  | nil => rfl
  | cons dev rest ih => simp [entries, ih, List.range'_succ]

theorem group_of_count_zero {ring_id : Int} {m : CommMap} (h : count ring_id m = 0) :
    group ring_id m = [] := by
  rw [count_eq_zero_iff] at h
  simp [group, h]

theorem assignLoop_fresh (comms : Nat → ncclComm_t) (nranks : Int) (rank : Nat → Int)
    (ring_id : Int) (devs : List Int) (hnd : devs.Nodup) (s : State)
    (hfresh : count ring_id s.comm_map_ = 0) :
    group ring_id (assignLoop comms nranks rank ring_id devs 0 s).comm_map_ =
      entries comms nranks rank ring_id devs 0 := by
  rw [assignLoop_group, group_of_count_zero hfresh, emplaceAll_fresh _ _ _ _ _ _ _ hnd]
  · simp
  · intro dev _
    rfl

theorem CreateAllNCCLComms_past_checks (d : Driver) (hd : d.succeeds) (s : State)
    (dev_ids : List Int) (ring_id : Int) (hne : dev_ids ≠ [])
    (hfresh : count ring_id s.comm_map_ = 0) :
    CreateAllNCCLComms d s dev_ids ring_id =
      (.ok (), { assignLoop (d.ncclCommInitAll s.trace dev_ids).2 dev_ids.length
          (fun i => i) ring_id dev_ids 0 (s.call (.ncclCommInitAll dev_ids))
        with once_flag_ := true }) := by
  obtain ⟨-, -, h3, -⟩ := hd
  have hlen : dev_ids.length > 0 := List.length_pos.2 hne
  have hc : count ring_id (s.call (.ncclCommInitAll dev_ids)).comm_map_ = 0 := hfresh
  simp [CreateAllNCCLComms, hlen, h3, hc]

/-- C2: for every non-empty list `dev_ids` of pairwise-distinct device ids and
every `ring_id` without an entry in the registry, on a driver whose calls
succeed, `CreateAllNCCLComms` returns normally and the ring holds exactly
`dev_ids.length` handles, with ranks `0, 1, .., N-1` in order; the handle stored
under `(ring_id, dev_ids[i])` has `rank = i`, `nranks = N`,
`device_id = dev_ids[i]` and `ring_id = ring_id`. -/
theorem CreateAllNCCLComms_fresh (d : Driver) (hd : d.succeeds) (s : State)
    (dev_ids : List Int) (ring_id : Int) (hne : dev_ids ≠ []) (hnd : dev_ids.Nodup)
    (hfresh : count ring_id s.comm_map_ = 0) :
    (CreateAllNCCLComms d s dev_ids ring_id).1 = .ok () ∧
    (handles ring_id (CreateAllNCCLComms d s dev_ids ring_id).2.comm_map_).length
      = dev_ids.length ∧
    (handles ring_id (CreateAllNCCLComms d s dev_ids ring_id).2.comm_map_).map NCCLCommImpl.rank
      = (List.range dev_ids.length).map (fun (i : Nat) => (i : Int)) ∧
    ∀ (i : Nat) (dev : Int), dev_ids[i]? = some dev →
      ∃ h : NCCLCommImpl,
        lookup ring_id dev (CreateAllNCCLComms d s dev_ids ring_id).2.comm_map_ = some (some h) ∧
        h.rank = i ∧ h.nranks = dev_ids.length ∧ h.device_id = dev ∧ h.ring_id = ring_id := by
  rw [CreateAllNCCLComms_past_checks d hd s dev_ids ring_id hne hfresh]
  have hc : count ring_id (s.call (.ncclCommInitAll dev_ids)).comm_map_ = 0 := hfresh
  have hg := assignLoop_fresh (d.ncclCommInitAll s.trace dev_ids).2 dev_ids.length
    (fun i => i) ring_id dev_ids hnd _ hc
  refine ⟨rfl, ?_, ?_, ?_⟩
  · simp only [handles, hg, entries_handles_length]
  · simp only [handles, hg, entries_ranks, List.range_eq_range']
  · intro i dev hi
    refine ⟨⟨ring_id, dev_ids.length, i, (d.ncclCommInitAll s.trace dev_ids).2 i, dev⟩,
      ?_, rfl, rfl, rfl, rfl⟩
    simp only [lookup_eq_find_group, hg]
    rw [find_entries _ _ _ _ _ hnd 0 i dev hi]
    simp

/-- Witness of `CreateAllNCCLComms_fresh`: devices `[0, 1, 2, 3]`, ring 5, on
the empty registry. -/
theorem CreateAllNCCLComms_fresh_witness :
    (CreateAllNCCLComms okDriver State.empty [0, 1, 2, 3] 5).1 = .ok () ∧
    (handles 5 (CreateAllNCCLComms okDriver State.empty [0, 1, 2, 3] 5).2.comm_map_).length
      = [(0 : Int), 1, 2, 3].length ∧
    (handles 5 (CreateAllNCCLComms okDriver State.empty [0, 1, 2, 3] 5).2.comm_map_).map
        NCCLCommImpl.rank
      = (List.range [(0 : Int), 1, 2, 3].length).map (fun (i : Nat) => (i : Int)) ∧
    ∀ (i : Nat) (dev : Int), [(0 : Int), 1, 2, 3][i]? = some dev →
      ∃ h : NCCLCommImpl,
        lookup 5 dev (CreateAllNCCLComms okDriver State.empty [0, 1, 2, 3] 5).2.comm_map_
          = some (some h) ∧
        h.rank = i ∧ h.nranks = [(0 : Int), 1, 2, 3].length ∧ h.device_id = dev ∧ h.ring_id = 5 :=
  CreateAllNCCLComms_fresh okDriver okDriver_succeeds State.empty [0, 1, 2, 3] 5
    (by decide) (by decide) (by decide)

theorem initRankLoop_comm_map (d : Driver) (nccl_id : Option ncclUniqueId) (nranks : Int)
    (rank : Nat → Int) (devs : List Int) (i : Nat) (comms : Nat → ncclComm_t) (s : State) :
    (initRankLoop d nccl_id nranks rank devs i comms s).2.comm_map_ = s.comm_map_ := by
  induction devs generalizing i comms s with
  | nil => rfl
  | cons dev rest ih =>
    simp only [initRankLoop]
    cases d.cudaSetDevice s.trace dev
    · rfl
    · cases nccl_id with
      | none => rfl
      | some id => simp [ih, State.call]

theorem initRankLoop_ok (d : Driver) (hd : d.succeeds) (id : ncclUniqueId) (nranks : Int)
    (rank : Nat → Int) (devs : List Int) (i : Nat) (comms : Nat → ncclComm_t) (s : State) :
    ∃ comms', (initRankLoop d (some id) nranks rank devs i comms s).1 = .ok comms' := by
  induction devs generalizing i comms s with
  | nil => exact ⟨comms, rfl⟩
  | cons dev rest ih =>
    simp only [initRankLoop, hd.1, Bool.true_eq_false, if_false]
    exact ih _ _ _

theorem initRankLoop_not_invalid (d : Driver) (nccl_id : Option ncclUniqueId) (nranks : Int)
    (rank : Nat → Int) (devs : List Int) (i : Nat) (comms : Nat → ncclComm_t) (s : State) :
    (initRankLoop d nccl_id nranks rank devs i comms s).1.isInvalidArgument = false := by
  induction devs generalizing i comms s with
  | nil => rfl
  | cons dev rest ih =>
    simp only [initRankLoop]
    cases d.cudaSetDevice s.trace dev
    · rfl
    · cases nccl_id with
      | none => rfl
      | some id => simp [ih]

theorem CreateNCCLCommMultiTrainer_past_checks (d : Driver) (hd : d.succeeds)
    (comms0 : Nat → ncclComm_t) (s : State) (dev_ids : List Int) (id : ncclUniqueId)
    (ntrainers train_id ring_id : Int) (hne : dev_ids ≠ [])
    (hfresh : count ring_id s.comm_map_ = 0) :
    ∃ (comms : Nat → ncclComm_t) (s3 : State), s3.comm_map_ = s.comm_map_ ∧
      CreateNCCLCommMultiTrainer d comms0 s dev_ids (some id) ntrainers train_id ring_id =
        (.ok (), { assignLoop comms (int_mul dev_ids.length ntrainers)
            (fun i => int_add (int_mul train_id dev_ids.length) i) ring_id dev_ids 0 s3
          with once_flag_ := true }) := by
  have hlen : dev_ids.length > 0 := List.length_pos.2 hne
  obtain ⟨comms, hok⟩ := initRankLoop_ok d hd id (int_mul dev_ids.length ntrainers)
    (fun i => int_add (int_mul train_id dev_ids.length) i) dev_ids 0 comms0 (s.call .ncclGroupStart)
  have hmap := initRankLoop_comm_map d (some id) (int_mul dev_ids.length ntrainers)
    (fun i => int_add (int_mul train_id dev_ids.length) i) dev_ids 0 comms0 (s.call .ncclGroupStart)
  generalize hL : initRankLoop d (some id) (int_mul dev_ids.length ntrainers)
    (fun i => int_add (int_mul train_id dev_ids.length) i) dev_ids 0 comms0 (s.call .ncclGroupStart) = L
    at hok hmap
  obtain ⟨o, s2⟩ := L
  simp only at hok hmap
  subst hok
  refine ⟨comms, s2.call .ncclGroupEnd, hmap, ?_⟩
  have hc : count ring_id (s2.call .ncclGroupEnd).comm_map_ = 0 := by
    show count ring_id s2.comm_map_ = 0
    rw [hmap]; exact hfresh
  simp only [CreateNCCLCommMultiTrainer, hlen, not_true_eq_false, if_false, hd.2.2.2.1,
    Bool.true_eq_false, hL, hd.2.2.2.2, hc]

theorem wrapInt_of_isInt32 {x : Int} (h : isInt32 x) : wrapInt x = x := by
  unfold isInt32 at h
  unfold wrapInt
  omega

theorem int_mul_of_isInt32 {a b : Int} (h : isInt32 (a * b)) : int_mul a b = a * b :=
  wrapInt_of_isInt32 h

theorem int_add_of_isInt32 {a b : Int} (h : isInt32 (a + b)) : int_add a b = a + b :=
  wrapInt_of_isInt32 h

/-- The rank expression `train_id * kDevices + i` has its exact value for every
position `i < K` once the first and the last rank of the process are `int`
values. -/
theorem rank_expr_exact {train_id : Int} {K i : Nat} (hi : i < K)
    (hfirst : isInt32 (train_id * K)) (hlast : isInt32 (train_id * K + (K - 1))) :
    int_add (int_mul train_id K) i = train_id * K + i := by
  rw [int_mul_of_isInt32 hfirst]
  apply int_add_of_isInt32
  have hi' : (i : Int) < (K : Int) := by exact_mod_cast hi
  have hi0 : (0 : Int) ≤ (i : Int) := Int.natCast_nonneg i
  unfold isInt32 at *
  generalize train_id * (K : Int) = p at *
  omega

/-- C3 as stated fails in two ways.  The rank is an `int`: with
`train_id = 2^30` and two local devices the claimed rank of the first device,
`train_id*K + 0 = 2^31`, is not an `int` value, and the handle stored under
`(5, 0)` has another rank.  And the token is dereferenced without a null check:
with a null token the call does not return normally and registers nothing. -/
theorem CreateNCCLCommMultiTrainer_rank_overflow :
    (CreateNCCLCommMultiTrainer okDriver (fun _ => 0) State.empty [0, 1] (some 7) 1 1073741824
      5).1 = .ok () ∧
    lookup 5 0 (CreateNCCLCommMultiTrainer okDriver (fun _ => 0) State.empty [0, 1] (some 7) 1
      1073741824 5).2.comm_map_ = some (some ⟨5, 2, -2147483648, 3, 0⟩) ∧
    ¬ (∃ h : NCCLCommImpl,
        lookup 5 0 (CreateNCCLCommMultiTrainer okDriver (fun _ => 0) State.empty [0, 1] (some 7) 1
          1073741824 5).2.comm_map_ = some (some h) ∧
        h.rank = 1073741824 * 2 + 0) ∧
    (CreateNCCLCommMultiTrainer okDriver (fun _ => 0) State.empty [0, 1] none 2 1 5).1
      = .error .NullDereference ∧
    handles 5 (CreateNCCLCommMultiTrainer okDriver (fun _ => 0) State.empty [0, 1] none 2 1
      5).2.comm_map_ = [] := by
  have e : lookup 5 0 (CreateNCCLCommMultiTrainer okDriver (fun _ => 0) State.empty [0, 1]
      (some 7) 1 1073741824 5).2.comm_map_ = some (some ⟨5, 2, -2147483648, 3, 0⟩) := by
    decide
  refine ⟨by decide, e, ?_, by decide, by decide⟩
  rintro ⟨h, h1, h2⟩
  rw [e] at h1
  cases h1
  simp at h2

/-- C3 (amended): for every non-empty list `dev_ids` of `K` pairwise-distinct
device ids, every `ntrainers` and `train_id` for which the world size
`K*ntrainers`, the first rank `train_id*K` and the last rank `train_id*K + K - 1`
are `int` values, and every `ring_id` without an entry in the registry, with a
non-null token on a driver whose calls succeed, `CreateNCCLCommMultiTrainer`
returns normally and registers exactly `K` handles in the ring, with ranks
`train_id*K, .., train_id*K + K - 1` in order; the handle stored under
`(ring_id, dev_ids[i])` has `rank = train_id*K + i`, `nranks = ntrainers*K` and
`device_id = dev_ids[i]`. -/
theorem CreateNCCLCommMultiTrainer_fresh (d : Driver) (hd : d.succeeds)
    (comms0 : Nat → ncclComm_t) (s : State) (dev_ids : List Int) (id : ncclUniqueId)
    (ntrainers train_id ring_id : Int) (hne : dev_ids ≠ []) (hnd : dev_ids.Nodup)
    (hfresh : count ring_id s.comm_map_ = 0)
    (hworld : isInt32 (dev_ids.length * ntrainers))
    (hfirst : isInt32 (train_id * dev_ids.length))
    (hlast : isInt32 (train_id * dev_ids.length + (dev_ids.length - 1))) :
    (CreateNCCLCommMultiTrainer d comms0 s dev_ids (some id) ntrainers train_id ring_id).1
      = .ok () ∧
    (handles ring_id (CreateNCCLCommMultiTrainer d comms0 s dev_ids (some id) ntrainers train_id
      ring_id).2.comm_map_).length = dev_ids.length ∧
    (handles ring_id (CreateNCCLCommMultiTrainer d comms0 s dev_ids (some id) ntrainers train_id
      ring_id).2.comm_map_).map NCCLCommImpl.rank
      = (List.range dev_ids.length).map (fun (i : Nat) => train_id * dev_ids.length + i) ∧
    ∀ (i : Nat) (dev : Int), dev_ids[i]? = some dev →
      ∃ h : NCCLCommImpl,
        lookup ring_id dev (CreateNCCLCommMultiTrainer d comms0 s dev_ids (some id) ntrainers
          train_id ring_id).2.comm_map_ = some (some h) ∧
        h.rank = train_id * dev_ids.length + i ∧ h.nranks = ntrainers * dev_ids.length ∧
        h.device_id = dev ∧ h.ring_id = ring_id := by
  obtain ⟨comms, s3, hmap, heq⟩ := CreateNCCLCommMultiTrainer_past_checks d hd comms0 s dev_ids id
    ntrainers train_id ring_id hne hfresh
  rw [heq]
  have hc : count ring_id s3.comm_map_ = 0 := by rw [hmap]; exact hfresh
  have hg := assignLoop_fresh comms (int_mul dev_ids.length ntrainers)
    (fun i => int_add (int_mul train_id dev_ids.length) i) ring_id dev_ids hnd s3 hc
  refine ⟨rfl, ?_, ?_, ?_⟩
  · simp only [handles, hg, entries_handles_length]
  · simp only [handles, hg, entries_ranks, List.range_eq_range']
    apply List.map_congr_left
    intro i hi
    have hi' : i < dev_ids.length := by
      simp only [List.mem_range'_1] at hi
      omega
    exact rank_expr_exact hi' hfirst hlast
  · intro i dev hi
    have hi' : i < dev_ids.length := (List.getElem?_eq_some.1 hi).1
    refine ⟨⟨ring_id, int_mul dev_ids.length ntrainers,
      int_add (int_mul train_id dev_ids.length) i, comms i, dev⟩, ?_, ?_, ?_, rfl, rfl⟩
    · simp only [lookup_eq_find_group, hg]
      rw [find_entries _ _ _ _ _ hnd 0 i dev hi]
      simp
    · exact rank_expr_exact hi' hfirst hlast
    · show int_mul dev_ids.length ntrainers = ntrainers * dev_ids.length
      rw [int_mul_of_isInt32 hworld, mul_comm]

/-- Witness of `CreateNCCLCommMultiTrainer_fresh`: two trainers with two devices
each, `train_id = 1`, ring 5, on the empty registry: ranks 2 and 3 of 4. -/
theorem CreateNCCLCommMultiTrainer_fresh_witness :
    (CreateNCCLCommMultiTrainer okDriver (fun _ => 0) State.empty [0, 1] (some 7) 2 1 5).1
      = .ok () ∧
    (handles 5 (CreateNCCLCommMultiTrainer okDriver (fun _ => 0) State.empty [0, 1] (some 7) 2 1
      5).2.comm_map_).length = [(0 : Int), 1].length ∧
    (handles 5 (CreateNCCLCommMultiTrainer okDriver (fun _ => 0) State.empty [0, 1] (some 7) 2 1
      5).2.comm_map_).map NCCLCommImpl.rank
      = (List.range [(0 : Int), 1].length).map (fun (i : Nat) => 1 * [(0 : Int), 1].length + i) ∧
    ∀ (i : Nat) (dev : Int), [(0 : Int), 1][i]? = some dev →
      ∃ h : NCCLCommImpl,
        lookup 5 dev (CreateNCCLCommMultiTrainer okDriver (fun _ => 0) State.empty [0, 1] (some 7)
          2 1 5).2.comm_map_ = some (some h) ∧
        h.rank = 1 * [(0 : Int), 1].length + i ∧ h.nranks = 2 * [(0 : Int), 1].length ∧
        h.device_id = dev ∧ h.ring_id = 5 :=
  CreateNCCLCommMultiTrainer_fresh okDriver okDriver_succeeds (fun _ => 0) State.empty [0, 1] 7
    2 1 5 (by decide) (by decide) (by decide) (by decide) (by decide) (by decide)

/-! ## What a failing builder leaves behind -/

theorem initRankLoop_state (d : Driver) (nccl_id : Option ncclUniqueId) (nranks : Int)
    (rank : Nat → Int) (devs : List Int) (i : Nat) (comms : Nat → ncclComm_t) (s : State) :
    ∃ tr, (initRankLoop d nccl_id nranks rank devs i comms s).2 =
      { s with trace := s.trace ++ tr } := by
  induction devs generalizing i comms s with
  | nil => exact ⟨[], by simp [initRankLoop]⟩
  | cons dev rest ih =>
    simp only [initRankLoop]
    cases d.cudaSetDevice s.trace dev
    · exact ⟨[.cudaSetDevice dev], rfl⟩
    · cases nccl_id with
      | none => exact ⟨[.cudaSetDevice dev], rfl⟩
      | some id =>
        obtain ⟨tr, htr⟩ := ih (i + 1)
          (fun j => if j = i then
            (d.ncclCommInitRank (s.call (.cudaSetDevice dev)).trace nranks id (rank i)).2
            else comms j)
          ((s.call (.cudaSetDevice dev)).call (.ncclCommInitRank nranks id (rank i)))
        refine ⟨.cudaSetDevice dev :: .ncclCommInitRank nranks id (rank i) :: tr, ?_⟩
        simp only [Bool.true_eq_false, if_false]
        rw [htr]
        simp [State.call]

/-- The two ways `CreateAllNCCLComms` throws an invalid-argument error: the size
check, before anything happened, or the duplicate-ring check, after
`ncclCommInitAll`. -/
theorem CreateAllNCCLComms_invalid (d : Driver) (s : State) (dev_ids : List Int) (ring_id : Int)
    (h : (CreateAllNCCLComms d s dev_ids ring_id).1.isInvalidArgument = true) :
    ((CreateAllNCCLComms d s dev_ids ring_id).1 = .error (.InvalidArgument .dev_ids_size_gt_0) ∧
      (CreateAllNCCLComms d s dev_ids ring_id).2 = s) ∨
    ((CreateAllNCCLComms d s dev_ids ring_id).1 = .error (.InvalidArgument .ring_id_count_eq_0) ∧
      (CreateAllNCCLComms d s dev_ids ring_id).2 = s.call (.ncclCommInitAll dev_ids)) := by
  revert h
  unfold CreateAllNCCLComms
  by_cases hlen : dev_ids.length > 0
  swap
  · simp [hlen]
  simp only [hlen, not_true_eq_false, if_false]
  cases (d.ncclCommInitAll s.trace dev_ids).1
  · simp [Outcome.isInvalidArgument]
  · by_cases hc : count ring_id (s.call (.ncclCommInitAll dev_ids)).comm_map_ = 0
    · simp [hc, Outcome.isInvalidArgument]
    · simp [hc]

/-- The two ways `CreateNCCLCommMultiTrainer` throws an invalid-argument error:
the size check, before anything happened, or the duplicate-ring check, after the
whole `ncclGroupStart .. ncclGroupEnd` bracket. -/
theorem CreateNCCLCommMultiTrainer_invalid (d : Driver) (comms0 : Nat → ncclComm_t) (s : State)
    (dev_ids : List Int) (nccl_id : Option ncclUniqueId) (ntrainers train_id ring_id : Int)
    (h : (CreateNCCLCommMultiTrainer d comms0 s dev_ids nccl_id ntrainers train_id
      ring_id).1.isInvalidArgument = true) :
    ((CreateNCCLCommMultiTrainer d comms0 s dev_ids nccl_id ntrainers train_id ring_id).1
        = .error (.InvalidArgument .dev_ids_size_gt_0) ∧
      (CreateNCCLCommMultiTrainer d comms0 s dev_ids nccl_id ntrainers train_id ring_id).2 = s) ∨
    ((CreateNCCLCommMultiTrainer d comms0 s dev_ids nccl_id ntrainers train_id ring_id).1
        = .error (.InvalidArgument .ring_id_count_eq_0) ∧
      ∃ tr, (CreateNCCLCommMultiTrainer d comms0 s dev_ids nccl_id ntrainers train_id ring_id).2
        = { s with trace := s.trace ++ .ncclGroupStart :: (tr ++ [.ncclGroupEnd]) }) := by
  revert h
  unfold CreateNCCLCommMultiTrainer
  by_cases hlen : dev_ids.length > 0
  swap
  · simp [hlen]
  simp only [hlen, not_true_eq_false, if_false]
  cases d.ncclGroupStart s.trace
  · simp [Outcome.isInvalidArgument]
  simp only [Bool.true_eq_false, if_false]
  have hni := initRankLoop_not_invalid d nccl_id (int_mul dev_ids.length ntrainers)
    (fun i => int_add (int_mul train_id dev_ids.length) i) dev_ids 0 comms0 (s.call .ncclGroupStart)
  obtain ⟨tr, hst⟩ := initRankLoop_state d nccl_id (int_mul dev_ids.length ntrainers)
    (fun i => int_add (int_mul train_id dev_ids.length) i) dev_ids 0 comms0 (s.call .ncclGroupStart)
  generalize initRankLoop d nccl_id (int_mul dev_ids.length ntrainers)
    (fun i => int_add (int_mul train_id dev_ids.length) i) dev_ids 0 comms0 (s.call .ncclGroupStart) = L
    at hni hst
  obtain ⟨o, s2⟩ := L
  simp only at hni hst
  subst hst
  cases o with
  | error e =>
    cases e <;> simp_all [Outcome.isInvalidArgument]
  | ok comms =>
    simp only
    cases d.ncclGroupEnd ((s.call .ncclGroupStart).trace ++ tr)
    · simp [Outcome.isInvalidArgument]
    · by_cases hc : count ring_id s.comm_map_ = 0
      · simp [hc, State.call, Outcome.isInvalidArgument]
      · simp only [State.call, hc, not_false_eq_true, if_true, Bool.true_eq_false, if_false]
        intro _
        right
        exact ⟨trivial, tr, by simp⟩

theorem CreateAllNCCLComms_dup (d : Driver) (s : State) (dev_ids : List Int) (ring_id : Int)
    (hdup : count ring_id s.comm_map_ ≠ 0) :
    (CreateAllNCCLComms d s dev_ids ring_id).1.isOk = false ∧
    (CreateAllNCCLComms d s dev_ids ring_id).2.comm_map_ = s.comm_map_ := by
  unfold CreateAllNCCLComms
  by_cases hlen : dev_ids.length > 0
  swap
  · simp [hlen, Outcome.isOk]
  simp only [hlen, not_true_eq_false, if_false]
  cases (d.ncclCommInitAll s.trace dev_ids).1
  · simp [Outcome.isOk, State.call]
  · simp [Outcome.isOk, State.call, hdup]

theorem CreateAllNCCLComms_dup_error (d : Driver) (hd : d.succeeds) (s : State)
    (dev_ids : List Int) (ring_id : Int) (hne : dev_ids ≠ [])
    (hdup : count ring_id s.comm_map_ ≠ 0) :
    (CreateAllNCCLComms d s dev_ids ring_id).1 = .error (.InvalidArgument .ring_id_count_eq_0) := by
  have hlen : dev_ids.length > 0 := List.length_pos.2 hne
  simp [CreateAllNCCLComms, hlen, hd.2.2.1, State.call, hdup]

theorem CreateNCCLCommMultiTrainer_dup (d : Driver) (comms0 : Nat → ncclComm_t) (s : State)
    (dev_ids : List Int) (nccl_id : Option ncclUniqueId) (ntrainers train_id ring_id : Int)
    (hdup : count ring_id s.comm_map_ ≠ 0) :
    (CreateNCCLCommMultiTrainer d comms0 s dev_ids nccl_id ntrainers train_id ring_id).1.isOk
      = false ∧
    (CreateNCCLCommMultiTrainer d comms0 s dev_ids nccl_id ntrainers train_id
      ring_id).2.comm_map_ = s.comm_map_ := by
  unfold CreateNCCLCommMultiTrainer
  by_cases hlen : dev_ids.length > 0
  swap
  · simp [hlen, Outcome.isOk]
  simp only [hlen, not_true_eq_false, if_false]
  cases d.ncclGroupStart s.trace
  · simp [Outcome.isOk, State.call]
  simp only [Bool.true_eq_false, if_false]
  have hmap := initRankLoop_comm_map d nccl_id (int_mul dev_ids.length ntrainers)
    (fun i => int_add (int_mul train_id dev_ids.length) i) dev_ids 0 comms0 (s.call .ncclGroupStart)
  generalize initRankLoop d nccl_id (int_mul dev_ids.length ntrainers)
    (fun i => int_add (int_mul train_id dev_ids.length) i) dev_ids 0 comms0 (s.call .ncclGroupStart) = L
    at hmap
  obtain ⟨o, s2⟩ := L
  have hmap' : s2.comm_map_ = s.comm_map_ := hmap
  cases o with
  | error e => exact ⟨rfl, hmap'⟩
  | ok comms =>
    simp only
    cases d.ncclGroupEnd s2.trace
    · exact ⟨rfl, hmap'⟩
    · simp [State.call, hmap', hdup, Outcome.isOk]

theorem CreateNCCLCommMultiTrainer_dup_error (d : Driver) (hd : d.succeeds)
    (comms0 : Nat → ncclComm_t) (s : State) (dev_ids : List Int) (id : ncclUniqueId)
    (ntrainers train_id ring_id : Int) (hne : dev_ids ≠ [])
    (hdup : count ring_id s.comm_map_ ≠ 0) :
    (CreateNCCLCommMultiTrainer d comms0 s dev_ids (some id) ntrainers train_id ring_id).1
      = .error (.InvalidArgument .ring_id_count_eq_0) := by
  have hlen : dev_ids.length > 0 := List.length_pos.2 hne
  obtain ⟨comms, hok⟩ := initRankLoop_ok d hd id (int_mul dev_ids.length ntrainers)
    (fun i => int_add (int_mul train_id dev_ids.length) i) dev_ids 0 comms0 (s.call .ncclGroupStart)
  have hmap := initRankLoop_comm_map d (some id) (int_mul dev_ids.length ntrainers)
    (fun i => int_add (int_mul train_id dev_ids.length) i) dev_ids 0 comms0 (s.call .ncclGroupStart)
  generalize hL : initRankLoop d (some id) (int_mul dev_ids.length ntrainers)
    (fun i => int_add (int_mul train_id dev_ids.length) i) dev_ids 0 comms0 (s.call .ncclGroupStart) = L
    at hok hmap
  obtain ⟨o, s2⟩ := L
  simp only at hok hmap
  subst hok
  have hc : ¬ count ring_id (s2.call .ncclGroupEnd).comm_map_ = 0 := by
    show ¬ count ring_id s2.comm_map_ = 0
    rw [hmap]; exact hdup
  simp only [CreateNCCLCommMultiTrainer, hlen, not_true_eq_false, if_false, hd.2.2.2.1,
    Bool.true_eq_false, hL, hd.2.2.2.2, hc, not_false_eq_true, if_true]

/-- C5 as stated fails: the duplicate-ring check is reached only after the
native initialisation.  On the machine with devices 0 and 1, ring 5 is built on
`[0, 1]`; building it again on `[2, 3]` ends in the failure of `ncclCommInitAll`,
and building it again with a null token ends in the dereference of the token,
neither in the invalid-argument error of the duplicate-ring check. -/
theorem duplicate_ring_other_failure :
    (CreateAllNCCLComms twoDeviceDriver State.empty [0, 1] 5).2 = ring5_built ∧
    count 5 ring5_built.comm_map_ = 1 ∧
    (CreateAllNCCLComms twoDeviceDriver ring5_built [2, 3] 5).1
      = .error (.External (.ncclCommInitAll [2, 3])) ∧
    (CreateNCCLCommMultiTrainer twoDeviceDriver (fun _ => 0) ring5_built [0, 1] none 2 0 5).1
      = .error .NullDereference := by
  decide

/-- C5 (amended): on a registry in which `ring_id` already has an entry, for
every driver, every device list and every token, `CreateAllNCCLComms` and
`CreateNCCLCommMultiTrainer` on that ring id do not return normally and leave
the registry unchanged: every key pair of the ring still maps to the same stored
pointer, hence to a handle with the same rank, nranks, device id and native
communicator.  When the native calls succeed and the device list is non-empty
(and, for `CreateNCCLCommMultiTrainer`, the token is non-null), the failure is
the invalid-argument error of the duplicate-ring check. -/
theorem duplicate_ring_rejected (d : Driver) (comms0 : Nat → ncclComm_t)
    (s : State) (dev_ids : List Int) (nccl_id : Option ncclUniqueId)
    (ntrainers train_id ring_id : Int) (hdup : count ring_id s.comm_map_ ≠ 0) :
    (CreateAllNCCLComms d s dev_ids ring_id).1.isOk = false ∧
    (CreateNCCLCommMultiTrainer d comms0 s dev_ids nccl_id ntrainers train_id ring_id).1.isOk
      = false ∧
    (CreateAllNCCLComms d s dev_ids ring_id).2.comm_map_ = s.comm_map_ ∧
    (CreateNCCLCommMultiTrainer d comms0 s dev_ids nccl_id ntrainers train_id
      ring_id).2.comm_map_ = s.comm_map_ ∧
    (∀ dev_id : Int,
      lookup ring_id dev_id (CreateAllNCCLComms d s dev_ids ring_id).2.comm_map_
        = lookup ring_id dev_id s.comm_map_ ∧
      lookup ring_id dev_id (CreateNCCLCommMultiTrainer d comms0 s dev_ids nccl_id ntrainers
        train_id ring_id).2.comm_map_ = lookup ring_id dev_id s.comm_map_) ∧
    (d.succeeds → dev_ids ≠ [] →
      (CreateAllNCCLComms d s dev_ids ring_id).1
        = .error (.InvalidArgument .ring_id_count_eq_0) ∧
      (nccl_id ≠ none →
        (CreateNCCLCommMultiTrainer d comms0 s dev_ids nccl_id ntrainers train_id ring_id).1
          = .error (.InvalidArgument .ring_id_count_eq_0))) := by
  have h1 := CreateAllNCCLComms_dup d s dev_ids ring_id hdup
  have h2 := CreateNCCLCommMultiTrainer_dup d comms0 s dev_ids nccl_id ntrainers train_id
    ring_id hdup
  refine ⟨h1.1, h2.1, h1.2, h2.2, ?_, ?_⟩
  · intro dev_id
    rw [h1.2, h2.2]
    exact ⟨rfl, rfl⟩
  · intro hd hne
    refine ⟨CreateAllNCCLComms_dup_error d hd s dev_ids ring_id hne hdup, ?_⟩
    intro hid
    obtain ⟨id, rfl⟩ := Option.ne_none_iff_exists'.1 hid
    exact CreateNCCLCommMultiTrainer_dup_error d hd comms0 s dev_ids id ntrainers train_id
      ring_id hne hdup

/-- Witness of `duplicate_ring_rejected`: ring 5 built on devices `[0, 1]`, then
built again on devices `[2, 3]` with every native call succeeding. -/
theorem duplicate_ring_rejected_witness :
    (CreateAllNCCLComms okDriver ring5_built [2, 3] 5).1
      = .error (.InvalidArgument .ring_id_count_eq_0) ∧
    (CreateNCCLCommMultiTrainer okDriver (fun _ => 0) ring5_built [2, 3] (some 7) 2 0 5).1
      = .error (.InvalidArgument .ring_id_count_eq_0) ∧
    (CreateAllNCCLComms okDriver ring5_built [2, 3] 5).2.comm_map_ = ring5_built.comm_map_ ∧
    (CreateNCCLCommMultiTrainer okDriver (fun _ => 0) ring5_built [2, 3] (some 7) 2 0
      5).2.comm_map_ = ring5_built.comm_map_ ∧
    ∀ dev_id : Int,
      lookup 5 dev_id (CreateAllNCCLComms okDriver ring5_built [2, 3] 5).2.comm_map_
        = lookup 5 dev_id ring5_built.comm_map_ ∧
      lookup 5 dev_id (CreateNCCLCommMultiTrainer okDriver (fun _ => 0) ring5_built [2, 3]
        (some 7) 2 0 5).2.comm_map_ = lookup 5 dev_id ring5_built.comm_map_ :=
  have h := duplicate_ring_rejected okDriver (fun _ => 0) ring5_built [2, 3] (some 7) 2 0 5
    (by decide)
  ⟨(h.2.2.2.2.2 okDriver_succeeds (by decide)).1,
    (h.2.2.2.2.2 okDriver_succeeds (by decide)).2 (by decide),
    h.2.2.1, h.2.2.2.1, h.2.2.2.2.1⟩

/-! ## World size -/

/-- C8: `ReleaseNCCLComms` is a total function on states, releasing twice gives
the state of releasing once, and on the empty registry it changes nothing. -/
theorem ReleaseNCCLComms_idempotent (s : State) :
    ReleaseNCCLComms (ReleaseNCCLComms s) = ReleaseNCCLComms s ∧
    ReleaseNCCLComms State.empty = State.empty ∧
    (s.comm_map_ = [] → ReleaseNCCLComms s = s) := by
  refine ⟨?_, rfl, ?_⟩
  · simp [ReleaseNCCLComms, Function.comp_def]
  · intro h
    cases s
    simp_all [ReleaseNCCLComms]

/-- Witness of `ReleaseNCCLComms_idempotent`: a state with native calls on record
and an empty registry is left as it is. -/
theorem ReleaseNCCLComms_idempotent_witness :
    ReleaseNCCLComms (State.empty.call .ncclGroupStart) = State.empty.call .ncclGroupStart :=
  (ReleaseNCCLComms_idempotent (State.empty.call .ncclGroupStart)).2.2 rfl

theorem ReleaseNCCLComms_find (s : State) (r : Int) :
    find r (ReleaseNCCLComms s).comm_map_ =
      (find r s.comm_map_).map (fun g => g.map (fun q => (q.1, none))) := by
  simp only [ReleaseNCCLComms]
  exact find_mapValues r (fun g : DevMap => g.map (fun q => (q.1, (none : Option NCCLCommImpl))))
    s.comm_map_

theorem ReleaseNCCLComms_count (s : State) (r : Int) :
    count r (ReleaseNCCLComms s).comm_map_ = count r s.comm_map_ := by
  simp only [ReleaseNCCLComms]
  exact count_mapValues r (fun g : DevMap => g.map (fun q => (q.1, (none : Option NCCLCommImpl))))
    s.comm_map_

theorem ReleaseNCCLComms_lookup (s : State) (r dev : Int) :
    lookup r dev (ReleaseNCCLComms s).comm_map_ =
      (lookup r dev s.comm_map_).map (fun _ => none) := by
  simp only [lookup, ReleaseNCCLComms_find]
  cases find r s.comm_map_ with
  | none => rfl
  | some g =>
    simp only [Option.map_some', Option.some_bind]
    exact find_mapValues dev (fun _ : Option NCCLCommImpl => (none : Option NCCLCommImpl)) g

/-- C10 as stated fails in its middle part: after a release the rebuild of an
existing ring does not always end in the duplicate-ring check.  With ring 5 built
on `[0, 1]` and released, `CreateAllNCCLComms([], 5)` fails the size check,
`CreateAllNCCLComms([2, 3], 5)` on the machine with devices 0 and 1 fails in
`ncclCommInitAll`, and `CreateNCCLCommMultiTrainer` with a null token fails in
the dereference of the token. -/
theorem released_ring_other_failure :
    count 5 (ReleaseNCCLComms ring5_built).comm_map_ = 1 ∧
    (CreateAllNCCLComms okDriver (ReleaseNCCLComms ring5_built) [] 5).1
      = .error (.InvalidArgument .dev_ids_size_gt_0) ∧
    (CreateAllNCCLComms twoDeviceDriver (ReleaseNCCLComms ring5_built) [2, 3] 5).1
      = .error (.External (.ncclCommInitAll [2, 3])) ∧
    (CreateNCCLCommMultiTrainer okDriver (fun _ => 0) (ReleaseNCCLComms ring5_built) [0, 1] none
      2 0 5).1 = .error .NullDereference := by
  decide

/-- C10 (amended): for every state, `ReleaseNCCLComms` keeps the ring keys and
the device keys of every ring and makes every stored pointer empty.  So a ring
that had an entry still has `count = 1`, and a later `CreateAllNCCLComms` or
`CreateNCCLCommMultiTrainer` with that ring id never returns normally and leaves
the released registry as it is, whatever the driver, the device list and the
token; when the native calls succeed and the device list is non-empty (and the
token non-null), it throws on the duplicate-ring check.  A later
`AssignNCCLComm` on a key pair that was present leaves the registry as it is
and returns the empty pointer. -/
theorem ReleaseNCCLComms_keeps_keys (d : Driver) (comms0 : Nat → ncclComm_t)
    (s : State) (dev_ids : List Int) (nccl_id : Option ncclUniqueId)
    (ntrainers train_id ring_id : Int) (comm : ncclComm_t) (nranks rank dev_id ring_id' : Int) :
    keys (ReleaseNCCLComms s).comm_map_ = keys s.comm_map_ ∧
    (∀ r, keys (group r (ReleaseNCCLComms s).comm_map_) = keys (group r s.comm_map_)) ∧
    (∀ r dev, lookup r dev (ReleaseNCCLComms s).comm_map_ =
      (lookup r dev s.comm_map_).map (fun _ => none)) ∧
    (count ring_id s.comm_map_ ≠ 0 →
      count ring_id (ReleaseNCCLComms s).comm_map_ = 1 ∧
      (CreateAllNCCLComms d (ReleaseNCCLComms s) dev_ids ring_id).1.isOk = false ∧
      (CreateAllNCCLComms d (ReleaseNCCLComms s) dev_ids ring_id).2.comm_map_
        = (ReleaseNCCLComms s).comm_map_ ∧
      (CreateNCCLCommMultiTrainer d comms0 (ReleaseNCCLComms s) dev_ids nccl_id ntrainers
        train_id ring_id).1.isOk = false ∧
      (CreateNCCLCommMultiTrainer d comms0 (ReleaseNCCLComms s) dev_ids nccl_id ntrainers
        train_id ring_id).2.comm_map_ = (ReleaseNCCLComms s).comm_map_ ∧
      (d.succeeds → dev_ids ≠ [] →
        (CreateAllNCCLComms d (ReleaseNCCLComms s) dev_ids ring_id).1
          = .error (.InvalidArgument .ring_id_count_eq_0) ∧
        (nccl_id ≠ none →
          (CreateNCCLCommMultiTrainer d comms0 (ReleaseNCCLComms s) dev_ids nccl_id ntrainers
            train_id ring_id).1 = .error (.InvalidArgument .ring_id_count_eq_0)))) ∧
    (lookup ring_id' dev_id s.comm_map_ ≠ none →
      (AssignNCCLComm (ReleaseNCCLComms s) comm nranks rank dev_id ring_id').1 = none ∧
      (AssignNCCLComm (ReleaseNCCLComms s) comm nranks rank dev_id ring_id').2.comm_map_
        = (ReleaseNCCLComms s).comm_map_ ∧
      lookup ring_id' dev_id
        (AssignNCCLComm (ReleaseNCCLComms s) comm nranks rank dev_id ring_id').2.comm_map_
        = some none) := by
  have hgroup : ∀ r, group r (ReleaseNCCLComms s).comm_map_ =
      (group r s.comm_map_).map (fun q => (q.1, none)) := by
    intro r
    simp only [group, ReleaseNCCLComms_find]
    cases find r s.comm_map_ <;> rfl
  refine ⟨?_, ?_, ReleaseNCCLComms_lookup s, ?_, ?_⟩
  · simp only [ReleaseNCCLComms]
    exact keys_mapValues _ _
  · intro r
    rw [hgroup]
    exact keys_mapValues (fun _ : Option NCCLCommImpl => (none : Option NCCLCommImpl)) _
  · intro hring
    have hcount : count ring_id (ReleaseNCCLComms s).comm_map_ ≠ 0 := by
      rw [ReleaseNCCLComms_count]; exact hring
    have h1 := CreateAllNCCLComms_dup d (ReleaseNCCLComms s) dev_ids ring_id hcount
    have h2 := CreateNCCLCommMultiTrainer_dup d comms0 (ReleaseNCCLComms s) dev_ids nccl_id
      ntrainers train_id ring_id hcount
    refine ⟨count_eq_one_of_ne_zero hcount, h1.1, h1.2, h2.1, h2.2, ?_⟩
    intro hd hne
    refine ⟨CreateAllNCCLComms_dup_error d hd _ dev_ids ring_id hne hcount, ?_⟩
    intro hid
    obtain ⟨id, rfl⟩ := Option.ne_none_iff_exists'.1 hid
    exact CreateNCCLCommMultiTrainer_dup_error d hd comms0 _ dev_ids id ntrainers train_id
      ring_id hne hcount
  · intro hkey
    have hl : lookup ring_id' dev_id (ReleaseNCCLComms s).comm_map_ = some none := by
      rw [ReleaseNCCLComms_lookup]
      obtain ⟨w, hw⟩ := Option.ne_none_iff_exists'.1 hkey
      rw [hw]; rfl
    have hf : find dev_id (group ring_id' (ReleaseNCCLComms s).comm_map_) = some none := by
      rw [← lookup_eq_find_group]; exact hl
    have hr : find ring_id' (ReleaseNCCLComms s).comm_map_ =
        some (group ring_id' (ReleaseNCCLComms s).comm_map_) := by
      rw [lookup] at hl
      cases hx : find ring_id' (ReleaseNCCLComms s).comm_map_ with
      | none => rw [hx] at hl; cases hl
      | some g => simp [group, hx]
    have hmap : (AssignNCCLComm (ReleaseNCCLComms s) comm nranks rank dev_id
        ring_id').2.comm_map_ = (ReleaseNCCLComms s).comm_map_ := by
      rw [AssignNCCLComm_comm_map, emplace_of_find [] hr]
      apply modify_of_fix
      intro v hv
      rw [hr] at hv
      cases hv
      exact emplace_of_find _ hf
    refine ⟨?_, hmap, ?_⟩
    · rw [AssignNCCLComm_fst, hf]; rfl
    · rw [hmap]; exact hl

/-- Witness of `ReleaseNCCLComms_keeps_keys`: ring 5 built on devices `[0, 1]`
and released; then a rebuild of ring 5 with every native call succeeding, and an
`AssignNCCLComm` on `(5, 1)`. -/
theorem ReleaseNCCLComms_keeps_keys_witness :
    count 5 (ReleaseNCCLComms ring5_built).comm_map_ = 1 ∧
    (CreateAllNCCLComms okDriver (ReleaseNCCLComms ring5_built) [0, 1] 5).1
      = .error (.InvalidArgument .ring_id_count_eq_0) ∧
    (CreateNCCLCommMultiTrainer okDriver (fun _ => 0) (ReleaseNCCLComms ring5_built) [0, 1]
      (some 7) 2 0 5).1 = .error (.InvalidArgument .ring_id_count_eq_0) ∧
    (AssignNCCLComm (ReleaseNCCLComms ring5_built) 9 2 1 1 5).1 = none ∧
    (AssignNCCLComm (ReleaseNCCLComms ring5_built) 9 2 1 1 5).2.comm_map_
      = (ReleaseNCCLComms ring5_built).comm_map_ ∧
    lookup 5 1 (AssignNCCLComm (ReleaseNCCLComms ring5_built) 9 2 1 1 5).2.comm_map_
      = some none :=
  have h := ReleaseNCCLComms_keeps_keys okDriver (fun _ => 0) ring5_built [0, 1] (some 7) 2 0 5
    9 2 1 1 5
  have hr := h.2.2.2.1 (by decide)
  ⟨hr.1, (hr.2.2.2.2.2 okDriver_succeeds (by decide)).1,
    (hr.2.2.2.2.2 okDriver_succeeds (by decide)).2 (by decide),
    h.2.2.2.2 (by decide)⟩

/-! ## Invalid-argument failures and the native calls -/

/-- C9 as stated fails for the duplicate-ring check, which both list builders
run after the native initialisation: building ring 5 a second time throws the
invalid-argument error with the registry unchanged, but `ncclCommInitAll`
(respectively the whole `ncclGroupStart .. ncclGroupEnd` bracket) has been issued
by the failing call. -/
theorem duplicate_ring_check_follows_native_calls :
    (CreateAllNCCLComms okDriver ring5_built [0, 1] 5).1
      = .error (.InvalidArgument .ring_id_count_eq_0) ∧
    (CreateAllNCCLComms okDriver ring5_built [0, 1] 5).2.trace
      = ring5_built.trace ++ [.ncclCommInitAll [0, 1]] ∧
    (CreateNCCLCommMultiTrainer okDriver (fun _ => 0) ring5_built [0, 1] (some 7) 2 0 5).1
      = .error (.InvalidArgument .ring_id_count_eq_0) ∧
    (CreateNCCLCommMultiTrainer okDriver (fun _ => 0) ring5_built [0, 1] (some 7) 2 0 5).2.trace
      = ring5_built.trace ++ [.ncclGroupStart, .cudaSetDevice 0, .ncclCommInitRank 4 7 0,
          .cudaSetDevice 1, .ncclCommInitRank 4 7 1, .ncclGroupEnd] ∧
    ¬ ((CreateAllNCCLComms okDriver ring5_built [0, 1] 5).2.trace = ring5_built.trace ∧
        (CreateAllNCCLComms okDriver ring5_built [0, 1] 5).2.comm_map_
          = ring5_built.comm_map_) := by
  decide

/-- C9 (amended): whenever one of the three builders throws an invalid-argument
error, the registry is the registry before the call; and when the failing check
is not the duplicate-ring check (null token, `nranks`, `rank`, `dev_id`, empty
device list), the whole state is the state before the call: no native call has
been issued. -/
theorem invalid_argument_effects (d : Driver) (comms0 : Nat → ncclComm_t) (s : State)
    (nccl_id : Option ncclUniqueId) (nranks rank dev_id ring_id ntrainers train_id : Int)
    (dev_ids : List Int) :
    ((CreateNCCLComm d s nccl_id nranks rank dev_id ring_id).1.isInvalidArgument = true →
      (CreateNCCLComm d s nccl_id nranks rank dev_id ring_id).2 = s) ∧
    ((CreateAllNCCLComms d s dev_ids ring_id).1.isInvalidArgument = true →
      (CreateAllNCCLComms d s dev_ids ring_id).2.comm_map_ = s.comm_map_ ∧
      ((CreateAllNCCLComms d s dev_ids ring_id).1
          ≠ .error (.InvalidArgument .ring_id_count_eq_0) →
        (CreateAllNCCLComms d s dev_ids ring_id).2 = s)) ∧
    ((CreateNCCLCommMultiTrainer d comms0 s dev_ids nccl_id ntrainers train_id
        ring_id).1.isInvalidArgument = true →
      (CreateNCCLCommMultiTrainer d comms0 s dev_ids nccl_id ntrainers train_id
        ring_id).2.comm_map_ = s.comm_map_ ∧
      ((CreateNCCLCommMultiTrainer d comms0 s dev_ids nccl_id ntrainers train_id ring_id).1
          ≠ .error (.InvalidArgument .ring_id_count_eq_0) →
        (CreateNCCLCommMultiTrainer d comms0 s dev_ids nccl_id ntrainers train_id ring_id).2
          = s)) := by
  refine ⟨?_, ?_, ?_⟩
  · cases nccl_id with
    | none => intro _; rfl
    | some id =>
      unfold CreateNCCLComm
      by_cases hn : nranks > 1
      swap
      · simp [hn]
      by_cases hr0 : rank ≥ 0
      swap
      · simp [hn, hr0]
      by_cases hr : rank < nranks
      swap
      · simp [hn, hr0, hr]
      by_cases hdev : dev_id ≥ 0
      swap
      · simp [hn, hr0, hr, hdev]
      simp only [hn, hr0, hr, hdev, not_true_eq_false, if_false]
      cases d.cudaSetDevice s.trace dev_id
      · simp [Outcome.isInvalidArgument]
      · cases hx : (d.ncclCommInitRank (s.call (.cudaSetDevice dev_id)).trace nranks id rank).1 <;>
          simp [Outcome.isInvalidArgument, hx]
  · intro h
    rcases CreateAllNCCLComms_invalid d s dev_ids ring_id h with ⟨h1, h2⟩ | ⟨h1, h2⟩
    · rw [h1, h2]
      exact ⟨rfl, fun _ => rfl⟩
    · rw [h1, h2]
      exact ⟨rfl, fun e => absurd rfl e⟩
  · intro h
    rcases CreateNCCLCommMultiTrainer_invalid d comms0 s dev_ids nccl_id ntrainers train_id
      ring_id h with ⟨h1, h2⟩ | ⟨h1, tr, h2⟩
    · rw [h1, h2]
      exact ⟨rfl, fun _ => rfl⟩
    · rw [h1, h2]
      exact ⟨rfl, fun e => absurd rfl e⟩

/-- Witness of `invalid_argument_effects`: a null token, an empty device list,
and a rebuild of ring 5, each with its hypothesis discharged. -/
theorem invalid_argument_effects_witness :
    (CreateNCCLComm okDriver ring5_built none 2 0 0 5).2 = ring5_built ∧
    (CreateAllNCCLComms okDriver ring5_built [] 5).2 = ring5_built ∧
    (CreateNCCLCommMultiTrainer okDriver (fun _ => 0) ring5_built [] none 2 0 5).2
      = ring5_built ∧
    (CreateAllNCCLComms okDriver ring5_built [0, 1] 5).2.comm_map_ = ring5_built.comm_map_ ∧
    (CreateNCCLCommMultiTrainer okDriver (fun _ => 0) ring5_built [0, 1] (some 7) 2 0
      5).2.comm_map_ = ring5_built.comm_map_ :=
  ⟨(invalid_argument_effects okDriver (fun _ => 0) ring5_built none 2 0 0 5 2 0 []).1
      (by decide),
    ((invalid_argument_effects okDriver (fun _ => 0) ring5_built none 2 0 0 5 2 0 []).2.1
      (by decide)).2 (by decide),
    ((invalid_argument_effects okDriver (fun _ => 0) ring5_built none 2 0 0 5 2 0 []).2.2
      (by decide)).2 (by decide),
    ((invalid_argument_effects okDriver (fun _ => 0) ring5_built none 2 0 0 5 2 0 [0, 1]).2.1
      (by decide)).1,
    ((invalid_argument_effects okDriver (fun _ => 0) ring5_built (some 7) 2 0 0 5 2 0
      [0, 1]).2.2 (by decide)).1⟩

/-! ## Invariants of the reachable registries -/

theorem mem_emplace {β : Type} {k : Int} {v : β} {m : List (Int × β)} {p : Int × β}
    (h : p ∈ emplace k v m) : p ∈ m ∨ p = (k, v) := by
  induction m with
  | nil => simpa [emplace] using h
  | cons q t ih =>
    obtain ⟨k', v'⟩ := q
    by_cases h0 : k' = k
    · simp only [emplace, h0, if_true] at h
      left; simpa [h0] using h
    · simp only [emplace, h0, if_false, List.mem_cons] at h
      rcases h with h | h
      · left; simp [h]
      · rcases ih h with h' | h'
        · left; simp [h']
        · right; exact h'

theorem keys_emplace_nodup {β : Type} (k : Int) (v : β) {m : List (Int × β)}
    (h : (keys m).Nodup) : (keys (emplace k v m)).Nodup := by
  cases hf : find k m with
  | some w => rw [emplace_of_find v hf]; exact h
  | none =>
    rw [emplace_of_not_mem v hf]
    have hk : k ∉ keys m := (find_eq_none_iff k m).1 hf
    simp only [keys, List.map_append, List.map_cons, List.map_nil] at hk ⊢
    exact List.Nodup.append h (List.nodup_singleton k) (by simpa using hk)

theorem find_mem {β : Type} {k : Int} {v : β} {m : List (Int × β)} (h : find k m = some v) :
    (k, v) ∈ m := by
  induction m with
  | nil => simp [find] at h
  | cons q t ih =>
    obtain ⟨k', v'⟩ := q
    by_cases h0 : k' = k
    · simp [find, h0] at h
      simp [h0, h]
    · simp [find, h0] at h
      exact List.mem_cons_of_mem _ (ih h)

theorem GroupInv_emplace {r : Int} {g : DevMap} (hg : GroupInv r g) (comm : ncclComm_t)
    (nranks rank dev_id : Int) :
    GroupInv r (emplace dev_id (some ⟨r, nranks, rank, comm, dev_id⟩) g) := by
  refine ⟨keys_emplace_nodup _ _ hg.1, ?_⟩
  intro dev h hmem
  rcases mem_emplace hmem with h' | h'
  · exact hg.2 dev h h'
  · cases h'
    exact ⟨rfl, rfl⟩

theorem GroupRank_emplace {g : DevMap} (hg : GroupRank g) (comm : ncclComm_t)
    (nranks rank dev_id r : Int) (h0 : 0 ≤ rank) (h1 : rank < nranks) :
    GroupRank (emplace dev_id (some ⟨r, nranks, rank, comm, dev_id⟩) g) := by
  intro dev h hmem
  rcases mem_emplace hmem with h' | h'
  · exact hg dev h h'
  · cases h'
    exact ⟨h0, h1⟩

theorem GroupInv_emplaceAll (comms : Nat → ncclComm_t) (nranks : Int) (rank : Nat → Int)
    (r : Int) (devs : List Int) (i : Nat) {g : DevMap} (hg : GroupInv r g) :
    GroupInv r (emplaceAll comms nranks rank r devs i g) := by
  induction devs generalizing i g with
  | nil => exact hg
  | cons dev rest ih => exact ih (i + 1) (GroupInv_emplace hg _ _ _ _)

theorem GroupRank_emplaceAll (comms : Nat → ncclComm_t) (nranks : Int) (rank : Nat → Int)
    (r : Int) (devs : List Int) (i : Nat) {g : DevMap} (hg : GroupRank g)
    (hr : ∀ j, i ≤ j → j < i + devs.length → 0 ≤ rank j ∧ rank j < nranks) :
    GroupRank (emplaceAll comms nranks rank r devs i g) := by
  induction devs generalizing i g with
  | nil => exact hg
  | cons dev rest ih =>
    have h0 := hr i (le_refl i) (by simp)
    refine ih (i + 1) (GroupRank_emplace hg _ _ _ _ _ h0.1 h0.2) ?_
    intro j hj1 hj2
    exact hr j (by omega) (by simp only [List.length_cons]; omega)

theorem assignLoop_group_ne (comms : Nat → ncclComm_t) (nranks : Int) (rank : Nat → Int)
    {ring_id r : Int} (h : r ≠ ring_id) (devs : List Int) (i : Nat) (s : State) :
    group r (assignLoop comms nranks rank ring_id devs i s).comm_map_ = group r s.comm_map_ := by
  simp only [group, assignLoop_find_ne comms nranks rank h]

theorem CreateNCCLComm_ok_form (d : Driver) (s : State) (nccl_id : Option ncclUniqueId)
    (nranks rank dev_id ring_id : Int)
    (h : (CreateNCCLComm d s nccl_id nranks rank dev_id ring_id).1.isOk = true) :
    ∃ comm, 0 ≤ rank ∧ rank < nranks ∧
      group ring_id (CreateNCCLComm d s nccl_id nranks rank dev_id ring_id).2.comm_map_ =
        emplace dev_id (some ⟨ring_id, nranks, rank, comm, dev_id⟩) (group ring_id s.comm_map_) ∧
      ∀ r, r ≠ ring_id →
        group r (CreateNCCLComm d s nccl_id nranks rank dev_id ring_id).2.comm_map_ =
          group r s.comm_map_ := by
  revert h
  cases nccl_id with
  | none => intro h; cases h
  | some id =>
    unfold CreateNCCLComm
    by_cases hn : nranks > 1
    swap
    · simp [hn, Outcome.isOk]
    by_cases hr0 : rank ≥ 0
    swap
    · simp [hn, hr0, Outcome.isOk]
    by_cases hr : rank < nranks
    swap
    · simp [hn, hr0, hr, Outcome.isOk]
    by_cases hdev : dev_id ≥ 0
    swap
    · simp [hn, hr0, hr, hdev, Outcome.isOk]
    simp only [hn, hr0, hr, hdev, not_true_eq_false, if_false]
    cases d.cudaSetDevice s.trace dev_id
    · simp [Outcome.isOk]
    · cases hx : (d.ncclCommInitRank (s.call (.cudaSetDevice dev_id)).trace nranks id rank).1
      · simp [Outcome.isOk]
      · intro _
        refine ⟨(d.ncclCommInitRank (s.call (.cudaSetDevice dev_id)).trace nranks id rank).2,
          by first | exact hr0 | trivial, by first | exact hr | trivial, ?_, ?_⟩
        · simp only [Bool.true_eq_false, if_false]
          exact AssignNCCLComm_group _ _ _ _ _ _
        · intro r hne
          simp only [Bool.true_eq_false, if_false]
          exact AssignNCCLComm_group_ne _ _ _ _ _ hne

theorem CreateAllNCCLComms_ok_form (d : Driver) (s : State) (dev_ids : List Int) (ring_id : Int)
    (h : (CreateAllNCCLComms d s dev_ids ring_id).1.isOk = true) :
    ∃ comms, count ring_id s.comm_map_ = 0 ∧
      group ring_id (CreateAllNCCLComms d s dev_ids ring_id).2.comm_map_ =
        emplaceAll comms dev_ids.length (fun i => i) ring_id dev_ids 0
          (group ring_id s.comm_map_) ∧
      ∀ r, r ≠ ring_id →
        group r (CreateAllNCCLComms d s dev_ids ring_id).2.comm_map_ = group r s.comm_map_ := by
  revert h
  unfold CreateAllNCCLComms
  by_cases hlen : dev_ids.length > 0
  swap
  · simp [hlen, Outcome.isOk]
  simp only [hlen, not_true_eq_false, if_false]
  cases (d.ncclCommInitAll s.trace dev_ids).1
  · simp [Outcome.isOk]
  · by_cases hc : count ring_id (s.call (.ncclCommInitAll dev_ids)).comm_map_ = 0
    · intro _
      simp only [hc, not_true_eq_false, if_false, Bool.true_eq_false]
      refine ⟨(d.ncclCommInitAll s.trace dev_ids).2, hc, ?_, ?_⟩
      · exact assignLoop_group _ _ _ _ _ _ _
      · intro r hne
        exact assignLoop_group_ne _ _ _ hne _ _ _
    · simp [hc, Outcome.isOk]

theorem CreateNCCLCommMultiTrainer_ok_form (d : Driver) (comms0 : Nat → ncclComm_t) (s : State)
    (dev_ids : List Int) (nccl_id : Option ncclUniqueId) (ntrainers train_id ring_id : Int)
    (h : (CreateNCCLCommMultiTrainer d comms0 s dev_ids nccl_id ntrainers train_id
      ring_id).1.isOk = true) :
    ∃ comms, count ring_id s.comm_map_ = 0 ∧
      group ring_id (CreateNCCLCommMultiTrainer d comms0 s dev_ids nccl_id ntrainers train_id
        ring_id).2.comm_map_ =
        emplaceAll comms (int_mul dev_ids.length ntrainers) (fun i => int_add (int_mul train_id dev_ids.length) i)
          ring_id dev_ids 0 (group ring_id s.comm_map_) ∧
      ∀ r, r ≠ ring_id →
        group r (CreateNCCLCommMultiTrainer d comms0 s dev_ids nccl_id ntrainers train_id
          ring_id).2.comm_map_ = group r s.comm_map_ := by
  revert h
  unfold CreateNCCLCommMultiTrainer
  by_cases hlen : dev_ids.length > 0
  swap
  · simp [hlen, Outcome.isOk]
  simp only [hlen, not_true_eq_false, if_false]
  cases d.ncclGroupStart s.trace
  · simp [Outcome.isOk]
  simp only [Bool.true_eq_false, if_false]
  have hmap := initRankLoop_comm_map d nccl_id (int_mul dev_ids.length ntrainers)
    (fun i => int_add (int_mul train_id dev_ids.length) i) dev_ids 0 comms0 (s.call .ncclGroupStart)
  generalize initRankLoop d nccl_id (int_mul dev_ids.length ntrainers)
    (fun i => int_add (int_mul train_id dev_ids.length) i) dev_ids 0 comms0 (s.call .ncclGroupStart) = L
    at hmap
  obtain ⟨o, s2⟩ := L
  have hmap' : s2.comm_map_ = s.comm_map_ := hmap
  cases o with
  | error e => intro h; cases h
  | ok comms =>
    simp only
    cases d.ncclGroupEnd s2.trace
    · intro h; cases h
    · by_cases hc : count ring_id (s2.call .ncclGroupEnd).comm_map_ = 0
      · intro _
        simp only [hc, not_true_eq_false, if_false, Bool.true_eq_false]
        have hc' : count ring_id s.comm_map_ = 0 := by
          rw [← hmap']; exact hc
        have hgs : ∀ r, group r (s2.call .ncclGroupEnd).comm_map_ = group r s.comm_map_ := by
          intro r
          show group r s2.comm_map_ = group r s.comm_map_
          rw [hmap']
        refine ⟨comms, hc', ?_, ?_⟩
        · rw [← hgs]
          exact assignLoop_group _ _ _ _ _ _ _
        · intro r hne
          rw [← hgs]
          exact assignLoop_group_ne _ _ _ hne _ _ _
      · simp [hc, Outcome.isOk]

theorem Reachable_GroupInv {d : Driver} {checked : Bool} {s : State}
    (h : Reachable d checked s) : ∀ r, GroupInv r (group r s.comm_map_) := by
  induction h with
  | empty =>
    intro r
    exact ⟨List.nodup_nil, fun dev h hmem => by cases hmem⟩
  | createNCCLComm nccl_id nranks rank dev_id ring_id _ hok ih =>
    obtain ⟨comm, -, -, hg, hne⟩ := CreateNCCLComm_ok_form _ _ _ _ _ _ _ hok
    intro r
    by_cases hr : r = ring_id
    · subst hr
      rw [hg]
      exact GroupInv_emplace (ih r) _ _ _ _
    · rw [hne r hr]
      exact ih r
  | createAllNCCLComms dev_ids ring_id _ hok ih =>
    obtain ⟨comms, -, hg, hne⟩ := CreateAllNCCLComms_ok_form _ _ _ _ hok
    intro r
    by_cases hr : r = ring_id
    · subst hr
      rw [hg]
      exact GroupInv_emplaceAll _ _ _ _ _ _ (ih r)
    · rw [hne r hr]
      exact ih r
  | createNCCLCommMultiTrainer comms0 dev_ids nccl_id ntrainers train_id ring_id _ _ hok ih =>
    obtain ⟨comms, -, hg, hne⟩ := CreateNCCLCommMultiTrainer_ok_form _ _ _ _ _ _ _ _ hok
    intro r
    by_cases hr : r = ring_id
    · subst hr
      rw [hg]
      exact GroupInv_emplaceAll _ _ _ _ _ _ (ih r)
    · rw [hne r hr]
      exact ih r

theorem Reachable_GroupRank {d : Driver} {s : State}
    (h : Reachable d true s) : ∀ r, GroupRank (group r s.comm_map_) := by
  induction h with
  | empty =>
    intro r dev h hmem
    cases hmem
  | createNCCLComm nccl_id nranks rank dev_id ring_id _ hok ih =>
    obtain ⟨comm, h0, h1, hg, hne⟩ := CreateNCCLComm_ok_form _ _ _ _ _ _ _ hok
    intro r
    by_cases hr : r = ring_id
    · subst hr
      rw [hg]
      exact GroupRank_emplace (ih r) _ _ _ _ _ h0 h1
    · rw [hne r hr]
      exact ih r
  | createAllNCCLComms dev_ids ring_id _ hok ih =>
    obtain ⟨comms, -, hg, hne⟩ := CreateAllNCCLComms_ok_form _ _ _ _ hok
    intro r
    by_cases hr : r = ring_id
    · subst hr
      rw [hg]
      refine GroupRank_emplaceAll _ _ _ _ _ _ (ih r) ?_
      intro j _ hj
      constructor
      · exact Int.natCast_nonneg j
      · have : j < dev_ids.length := by omega
        exact_mod_cast this
    · rw [hne r hr]
      exact ih r
  | createNCCLCommMultiTrainer comms0 dev_ids nccl_id ntrainers train_id ring_id _ hchk hok ih =>
    obtain ⟨comms, -, hg, hne⟩ := CreateNCCLCommMultiTrainer_ok_form _ _ _ _ _ _ _ _ hok
    obtain ⟨ht0, ht1, hW⟩ := hchk rfl
    intro r
    by_cases hr : r = ring_id
    · subst hr
      rw [hg]
      refine GroupRank_emplaceAll _ _ _ _ _ _ (ih r) ?_
      intro j _ hj
      have hj' : (j : Int) < (dev_ids.length : Int) := by
        have : j < dev_ids.length := by omega
        exact_mod_cast this
      have hj0 : (0 : Int) ≤ (j : Int) := Int.natCast_nonneg j
      have hK : (0 : Int) ≤ (dev_ids.length : Int) := Int.natCast_nonneg _
      have hp0 : 0 ≤ train_id * (dev_ids.length : Int) := mul_nonneg ht0 hK
      have h1 : (train_id + 1) * (dev_ids.length : Int) ≤ ntrainers * (dev_ids.length : Int) :=
        mul_le_mul_of_nonneg_right (by omega) hK
      have h2 : (dev_ids.length : Int) * ntrainers = ntrainers * (dev_ids.length : Int) :=
        mul_comm _ _
      have h3 : (train_id + 1) * (dev_ids.length : Int)
          = train_id * (dev_ids.length : Int) + (dev_ids.length : Int) := by ring
      have hpw : train_id * (dev_ids.length : Int) + (dev_ids.length : Int)
          ≤ (dev_ids.length : Int) * ntrainers := by rw [h2]; linarith
      have eW : int_mul (dev_ids.length : Int) ntrainers = (dev_ids.length : Int) * ntrainers :=
        int_mul_of_isInt32 ⟨by linarith, hW⟩
      have eP : int_mul train_id (dev_ids.length : Int) = train_id * (dev_ids.length : Int) :=
        int_mul_of_isInt32 ⟨by linarith, by linarith⟩
      have eR : int_add (train_id * (dev_ids.length : Int)) (j : Int)
          = train_id * (dev_ids.length : Int) + (j : Int) :=
        int_add_of_isInt32 ⟨by linarith, by linarith⟩
      show 0 ≤ int_add (int_mul train_id (dev_ids.length : Int)) (j : Int) ∧
        int_add (int_mul train_id (dev_ids.length : Int)) (j : Int)
          < int_mul (dev_ids.length : Int) ntrainers
      rw [eP, eR, eW]
      exact ⟨by linarith, by linarith⟩
    · rw [hne r hr]
      exact ih r

theorem mem_handles {ring_id : Int} {m : CommMap} {h : NCCLCommImpl}
    (hm : h ∈ handles ring_id m) : ∃ dev, (dev, some h) ∈ group ring_id m := by
  simp only [handles, List.mem_filterMap] at hm
  obtain ⟨⟨dev, o⟩, hmem, ho⟩ := hm
  simp only at ho
  subst ho
  exact ⟨dev, hmem⟩

theorem device_ids_sublist_keys (g : DevMap)
    (hg : ∀ dev h, (dev, some h) ∈ g → h.device_id = dev) :
    ((g.filterMap Prod.snd).map NCCLCommImpl.device_id).Sublist (keys g) := by
  induction g with
  | nil => exact List.Sublist.slnil
  | cons q t ih =>
    obtain ⟨k, o⟩ := q
    have ih' := ih (fun dev h hmem => hg dev h (List.mem_cons_of_mem _ hmem))
    cases o with
    | none =>
      simp only [List.filterMap_cons, keys, List.map_cons]
      exact List.Sublist.cons _ ih'
    | some h =>
      have hk : h.device_id = k := hg k h (List.mem_cons_self _ _)
      simp only [List.filterMap_cons, keys, List.map_cons, hk]
      exact List.Sublist.cons₂ _ ih'

/-- C7 as stated fails: the registry does not validate ranks across calls.  A
reachable state holds ranks 4 and 5 in a ring of world size 4
(`CreateNCCLCommMultiTrainer` does not check `train_id`); another holds rank 0
twice in one ring (two `CreateNCCLComm` calls); and after a successful
`CreateAllNCCLComms` on the device list `[0, 0]` rank 1 is held by no handle. -/
theorem reachable_ranks_not_validated :
    (Reachable okDriver false train_id_out_of_range ∧
      ¬ (∀ h ∈ handles 5 train_id_out_of_range.comm_map_, 0 ≤ h.rank ∧ h.rank < h.nranks)) ∧
    (Reachable okDriver false same_rank_twice ∧
      ¬ ((handles 5 same_rank_twice.comm_map_).map NCCLCommImpl.rank).Nodup) ∧
    ((CreateAllNCCLComms okDriver State.empty [0, 0] 5).1 = .ok () ∧
      ((handles 5 same_device_twice.comm_map_).map NCCLCommImpl.rank).count 1 = 0) := by
  refine ⟨⟨?_, by decide⟩, ⟨?_, by decide⟩, by decide, by decide⟩
  · exact Reachable.createNCCLCommMultiTrainer (fun _ => 0) [0, 1] (some 7) 2 2 5
      Reachable.empty (fun h => by cases h) (by decide)
  · exact Reachable.createNCCLComm (some 7) 2 0 1 5
      (Reachable.createNCCLComm (some 7) 2 0 0 5 Reachable.empty (by decide)) (by decide)

/-- C7 (amended): in every state reachable from the untouched registry by
successful `CreateNCCLComm`, `CreateAllNCCLComms` and
`CreateNCCLCommMultiTrainer` calls, for every ring the device ids of its handles
are pairwise distinct and every stored handle carries the device id and the ring
id of its key; when every `CreateNCCLCommMultiTrainer` call had
`0 <= train_id < ntrainers` and a world size `K * ntrainers` that is an `int`
value, every handle has `0 <= rank < nranks`; and directly after a successful
`CreateAllNCCLComms` on `N` pairwise-distinct devices from such a state the ring
holds `N` handles and each rank `0 .. N-1` is held by exactly one of them. -/
theorem reachable_registry_invariant (d : Driver) (checked : Bool) (s : State)
    (hreach : Reachable d checked s) (ring_id : Int) :
    ((handles ring_id s.comm_map_).map NCCLCommImpl.device_id).Nodup ∧
    (∀ dev h, lookup ring_id dev s.comm_map_ = some (some h) →
      h.device_id = dev ∧ h.ring_id = ring_id) ∧
    (checked = true → ∀ h ∈ handles ring_id s.comm_map_, 0 ≤ h.rank ∧ h.rank < h.nranks) ∧
    (∀ (dev_ids : List Int) (ring : Int), dev_ids.Nodup →
      (CreateAllNCCLComms d s dev_ids ring).1.isOk = true →
      (handles ring (CreateAllNCCLComms d s dev_ids ring).2.comm_map_).length = dev_ids.length ∧
      ∀ k : Nat, k < dev_ids.length →
        ((handles ring (CreateAllNCCLComms d s dev_ids ring).2.comm_map_).map
          NCCLCommImpl.rank).count (k : Int) = 1) := by
  have hinv := Reachable_GroupInv hreach ring_id
  refine ⟨?_, ?_, ?_, ?_⟩
  · exact List.Nodup.sublist
      (device_ids_sublist_keys _ (fun dev h hmem => (hinv.2 dev h hmem).1)) hinv.1
  · intro dev h hl
    rw [lookup_eq_find_group] at hl
    exact hinv.2 dev h (find_mem hl)
  · intro hchk h hm
    subst hchk
    obtain ⟨dev, hmem⟩ := mem_handles hm
    exact Reachable_GroupRank hreach ring_id dev h hmem
  · intro dev_ids ring hnd hok
    obtain ⟨comms, hc, hg, -⟩ := CreateAllNCCLComms_ok_form d s dev_ids ring hok
    rw [group_of_count_zero hc, emplaceAll_fresh _ _ _ _ _ _ [] hnd (fun _ _ => rfl)] at hg
    refine ⟨?_, ?_⟩
    · simp only [handles, hg, List.nil_append, entries_handles_length]
    · intro k hk
      simp only [handles, hg, List.nil_append, entries_ranks]
      apply List.count_eq_one_of_mem
      · rw [← List.range_eq_range']
        exact (List.nodup_range _).map Nat.cast_injective
      · simp only [List.mem_map, List.mem_range'_1]
        exact ⟨k, ⟨Nat.zero_le _, by omega⟩, rfl⟩

/-- Witness of `reachable_registry_invariant`: ring 5 built on devices `[0, 1]`,
then ring 6 built on devices `[2, 3]`. -/
theorem reachable_registry_invariant_witness :
    ((handles 5 ring5_built.comm_map_).map NCCLCommImpl.device_id).Nodup ∧
    (∀ dev h, lookup 5 dev ring5_built.comm_map_ = some (some h) →
      h.device_id = dev ∧ h.ring_id = 5) ∧
    (∀ h ∈ handles 5 ring5_built.comm_map_, 0 ≤ h.rank ∧ h.rank < h.nranks) ∧
    (handles 6 (CreateAllNCCLComms okDriver ring5_built [2, 3] 6).2.comm_map_).length
      = [(2 : Int), 3].length ∧
    ∀ k : Nat, k < [(2 : Int), 3].length →
      ((handles 6 (CreateAllNCCLComms okDriver ring5_built [2, 3] 6).2.comm_map_).map
        NCCLCommImpl.rank).count (k : Int) = 1 :=
  have h := reachable_registry_invariant okDriver true ring5_built
    (Reachable.createAllNCCLComms [0, 1] 5 Reachable.empty (by decide)) 5
  ⟨h.1, h.2.1, h.2.2.1 rfl, h.2.2.2 [2, 3] 6 (by decide) (by decide)⟩

end paddle.platform
